import Mathlib

/-!
Verification of the geofuse shape-harmonization engine.

We shallowly embed the dataframe-and-geometry code of
`src/geofuse/shapes/{merge,harmonize,clean,retry}.py` into Lean.
Geometry kernel primitives (area, buffering, intersection, union,
spatial-index queries) are likewise black boxes to the Python code, so they
appear here as function parameters; all arithmetic is over `ℚ`.
Columns that pandas renders as NaN (fractions with a null group key or a
zero denominator) are embedded as `Option ℚ`, with every comparison
against a NaN yielding `false`, matching IEEE semantics for the
comparisons the code performs.
-/

namespace Geofuse

/-- Comparison `x ≤ c` where `x` may be NaN (`none`): NaN compares false. -/
def cmpLe (x : Option ℚ) (c : ℚ) : Bool :=
  match x with
  | none => false
  | some v => decide (v ≤ c)

/-- A partition row as consumed by `determine_mergeable_geometries`
(`PartitionedSchema`): nullable `shape_id`/`shape_name`/`level`, a parent
id, a path to the top parent and a geometry. -/
structure PRow (γ : Type) where
  shapeId : Option String
  shapeName : Option String
  parentId : String
  pttp : String
  level : Option ℚ
  geometry : γ
deriving DecidableEq

/-- Model of `gdf.groupby("parent_id")["area"].transform("sum")` for one row:
sum of areas over all rows sharing the row's `parent_id`. -/
def coarseArea {γ : Type} (area : γ → ℚ) (rows : List (PRow γ)) (r : PRow γ) : ℚ :=
  ((rows.filter (fun s => s.parentId = r.parentId)).map (fun s => area s.geometry)).sum

/-- Model of `gdf.groupby("shape_id")["area"].transform("sum")` for one row.
Pandas drops null group keys, leaving NaN in the transform result, so a
row with a null `shape_id` gets `none`. -/
def detailedArea {γ : Type} (area : γ → ℚ) (rows : List (PRow γ)) (r : PRow γ) : Option ℚ :=
  match r.shapeId with
  | none => none
  | some sid =>
      some ((rows.filter (fun s => s.shapeId = some sid)).map (fun s => area s.geometry)).sum

/-- Safe division producing `none` where float division would produce
NaN or ±inf (zero denominator), so that subsequent `≤` comparisons are
false exactly as they are on NaN/inf in the source. -/
def fracQ (num : ℚ) (den : ℚ) : Option ℚ :=
  if den = 0 then none else some (num / den)

/-- NaN-propagating division with an optional numerator. -/
def fracQ? (num : Option ℚ) (den : Option ℚ) : Option ℚ :=
  match num, den with
  | some n, some d => fracQ n d
  | _, _ => none

/-- The per-row statistics computed by `determine_mergeable_geometries`. -/
structure RowStats where
  area : ℚ
  boundingArea : ℚ
  compactness : Option ℚ
  coarseFraction : Option ℚ
  detailedFraction : Option ℚ
deriving DecidableEq

/-- Statistics of one row of `determine_mergeable_geometries`:
`area`, `bounding_area`, `compactness = area / bounding_area`,
`coarse_fraction = area / coarse_area`,
`detailed_fraction = area / detailed_area`. -/
def rowStats {γ : Type} (area boundingArea : γ → ℚ) (rows : List (PRow γ)) (r : PRow γ) :
    RowStats :=
  let a := area r.geometry
  { area := a
    boundingArea := boundingArea r.geometry
    compactness := fracQ a (boundingArea r.geometry)
    coarseFraction := fracQ a (coarseArea area rows r)
    detailedFraction := fracQ? (some a) (detailedArea area rows r) }

/-- Model of `missing_from_admin`: `shape_id` is null. -/
def missingFromAdmin {γ : Type} (r : PRow γ) : Bool :=
  r.shapeId.isNone

/-- Model of `small_geometry` as the source computes it:
`detailed_fraction <= detailed_area_threshold` and
`coarse_fraction <= coarse_area_threshold`. -/
def smallGeometry (st : RowStats) (detailedAreaThreshold coarseAreaThreshold : ℚ) : Bool :=
  cmpLe st.detailedFraction detailedAreaThreshold &&
    cmpLe st.coarseFraction coarseAreaThreshold

/-- Model of `sliver_geometry` as the source computes it (merge.py lines 70-72):
`detailed_fraction <= 2 * detailed_area_threshold` and
`coarse_fraction <= compactness_threshold`.  Note the second conjunct
reads the `coarse_fraction` column, not the `compactness` column. -/
def sliverGeometry (st : RowStats) (compactnessThreshold detailedAreaThreshold : ℚ) : Bool :=
  cmpLe st.detailedFraction (2 * detailedAreaThreshold) &&
    cmpLe st.coarseFraction compactnessThreshold

/-- The sliver rule as the spec words it (the name-intended comparison):
`detailed_fraction <= 2 * detailed_area_threshold` and
`compactness <= compactness_threshold`.  Kept separate so the code rule
can be compared against it. -/
def sliverGeometrySpec (st : RowStats) (compactnessThreshold detailedAreaThreshold : ℚ) : Bool :=
  cmpLe st.detailedFraction (2 * detailedAreaThreshold) &&
    cmpLe st.compactness compactnessThreshold

/-- Model of `mergeable = missing_from_admin | small_geometry | sliver_geometry`. -/
def mergeableFlag {γ : Type} (area boundingArea : γ → ℚ)
    (compactnessThreshold detailedAreaThreshold coarseAreaThreshold : ℚ)
    (rows : List (PRow γ)) (r : PRow γ) : Bool :=
  let st := rowStats area boundingArea rows r
  missingFromAdmin r ||
    smallGeometry st detailedAreaThreshold coarseAreaThreshold ||
    sliverGeometry st compactnessThreshold detailedAreaThreshold

/-- A concrete geometry stand-in carrying the two measures the
classifier reads. -/
structure Geom where
  a : ℚ
  ba : ℚ
deriving DecidableEq

/-- Area of the concrete stand-in geometry. -/
def geomArea (g : Geom) : ℚ := g.a

/-- Minimum-bounding-circle area of the concrete stand-in geometry. -/
def geomBoundingArea (g : Geom) : ℚ := g.ba

/-- Row A of the C1 failing input: parent "P", detailed shape "S",
area 3, bounding-circle area 75 (compactness 1/25 = 0.04). -/
def c1RowA : PRow Geom :=
  { shapeId := some "S", shapeName := some "S", parentId := "P", pttp := "T"
    level := some 2, geometry := { a := 3, ba := 75 } }

/-- Row B of the C1 failing input: another fragment of detailed shape
"S" under a different parent, area 17. -/
def c1RowB : PRow Geom :=
  { shapeId := some "S", shapeName := some "S", parentId := "Q", pttp := "T2"
    level := some 2, geometry := { a := 17, ba := 20 } }

/-- Row C of the C1 failing input: a second fragment of parent "P",
area 3, so that row A's coarse fraction is 1/2. -/
def c1RowC : PRow Geom :=
  { shapeId := some "S2", shapeName := some "S2", parentId := "P", pttp := "T"
    level := some 2, geometry := { a := 3, ba := 4 } }

/-- The C1 failing input frame. -/
def c1Rows : List (PRow Geom) := [c1RowA, c1RowB, c1RowC]

/-- Model of `AlgorithmMetrics.compute_area_error` (model.py lines 169-175):
`100 * (detailed.area.sum() - coarse.area.sum()) / coarse.area.sum()`.
The embedding is exact whenever the coarse area sum is nonzero (the only
regime where float and rational division agree). -/
def computeAreaError {γ : Type} (area : γ → ℚ) (coarse detailed : List γ) : ℚ :=
  100 * ((detailed.map area).sum - (coarse.map area).sum) / (coarse.map area).sum

/-- Model of `Harmonizer.correct_area` (harmonize.py lines 166-173): compute the
pre-correction area error and run `fix_overlapping_geometries` exactly
when `area_error < 0.2`; otherwise hand the detailed frame back
untouched.  The comparison in the source is signed: no absolute value is
taken. -/
def correctArea {γ : Type} (area : γ → ℚ) (fixOverlaps : List γ → List γ)
    (coarse detailed : List γ) : List γ :=
  if computeAreaError area coarse detailed < 1/5 then fixOverlaps detailed else detailed

/-- Model of `Harmonizer.max_step_iterations` (harmonize.py line 37). -/
def maxStepIterations : Nat := 5

/-- The continuation test of the collapse loop (harmonize.py lines
147-149): `mergeable_area > 0.0001 or mergeable_percent > 0.0001`. -/
def collapseContinue {δ : Type} (stats : δ → ℚ × ℚ) (d : δ) : Prop :=
  (stats d).1 > 1/10000 ∨ (stats d).2 > 1/10000

instance {δ : Type} (stats : δ → ℚ × ℚ) (d : δ) : Decidable (collapseContinue stats d) := by
  unfold collapseContinue; infer_instance

/-- The while loop of `Harmonizer.collapse_geometries`: `rem` is the
number of iterations still allowed (`max_step_iterations` minus the
iteration counter, which `end_collapse` bumps once per body execution),
`iters` the iterations used so far, and one body execution is the
abstract `step` (merge, multipolygon repair, re-partition, re-classify).
Returns the final frame and the number of body executions. -/
def collapseGo {δ : Type} (step : δ → δ) (stats : δ → ℚ × ℚ) :
    Nat → Nat → δ → δ × Nat
  | 0, iters, d => (d, iters)
  | rem + 1, iters, d =>
      if collapseContinue stats d then
        collapseGo step stats rem (iters + 1) (step d)
      else (d, iters)

/-- Model of `Harmonizer.collapse_geometries` (harmonize.py lines 140-164),
iteration structure: start with the iteration counter at 0 and loop
while the counter is below `max_step_iterations` and the mergeable
statistics remain above tolerance. -/
def collapseGeometries {δ : Type} (step : δ → δ) (stats : δ → ℚ × ℚ) (d : δ) : δ × Nat :=
  collapseGo step stats maxStepIterations 0 d

/-- Outcome of a buffer-retry wrapper: a successful transform result, a
fatal RuntimeError carrying the chained cause when the wrapped
exception type has one, or fuel exhaustion (an artifact of embedding
the while loop; the equivalence theorems show it is never reached). -/
inductive RetryResult (γ ε : Type) where
  | ok (g : γ)
  | fatal (cause : Option ε)
  | outOfFuel
deriving DecidableEq

/-- Default `buffer_start = 2**-16` of the retry wrappers. -/
def bufferStart : ℚ := 1 / 2 ^ 16

/-- Default `max_buffer = 2**-8` of the retry wrappers. -/
def maxBuffer : ℚ := 1 / 2 ^ 8

/-- The while loop of `buffer_on_exception` (retry.py lines 18-44):
call the wrapped transform; on the retried exception, if the radius has
passed the cap, either raise fatally with the exception chained (second
cap hit) or restart at `buffer_start * 1.01`; then smooth the working
frame with buffer(+r).buffer(−r) and double the radius. -/
def bufferLoopExc {γ ε : Type} (func : γ → Except ε γ) (buf : γ → ℚ → γ) :
    Nat → γ → ℚ → Bool → RetryResult γ ε
  | 0, _, _, _ => .outOfFuel
  | fuel + 1, g, b, shouldFail =>
      match func g with
      | .ok r => .ok r
      | .error e =>
          if b > maxBuffer then
            if shouldFail then .fatal (some e)
            else
              bufferLoopExc func buf fuel (buf g (bufferStart * (101/100)))
                (2 * (bufferStart * (101/100))) true
          else bufferLoopExc func buf fuel (buf g b) (2 * b) shouldFail

/-- Model of `buffer_on_exception(retry_on)(func)` applied to a frame.  The
wrapper works on a copy of the caller's frame; in this pure embedding
the caller's value is unchanged by construction. -/
def bufferOnException {γ ε : Type} (func : γ → Except ε γ) (buf : γ → ℚ → γ)
    (g : γ) : RetryResult γ ε :=
  bufferLoopExc func buf 100 g bufferStart false

/-- The while loop of `buffer_on_condition` (retry.py lines 57-86):
re-run the transform after each smoothing while the retry predicate
holds on the result, with the same radius schedule; the second cap hit
raises without a chained cause. -/
def bufferLoopCond {γ : Type} (func : γ → γ) (cond : γ → Bool) (buf : γ → ℚ → γ) :
    Nat → γ → γ → ℚ → Bool → RetryResult γ Unit
  | 0, _, _, _, _ => .outOfFuel
  | fuel + 1, g, result, b, shouldFail =>
      if cond result then
        if b > maxBuffer then
          if shouldFail then .fatal none
          else
            bufferLoopCond func cond buf fuel (buf g (bufferStart * (101/100)))
              (func (buf g (bufferStart * (101/100)))) (2 * (bufferStart * (101/100))) true
        else bufferLoopCond func cond buf fuel (buf g b) (func (buf g b)) (2 * b) shouldFail
      else .ok result

/-- Model of `buffer_on_condition(retry_on)(func)` applied to a frame: the
transform runs once up front, then the retry loop takes over. -/
def bufferOnCondition {γ : Type} (func : γ → γ) (cond : γ → Bool) (buf : γ → ℚ → γ)
    (g : γ) : RetryResult γ Unit :=
  bufferLoopCond func cond buf 100 g (func g) bufferStart false

/-- The radius schedule described by the spec sentence of C5: radii
start at 2⁻¹⁶ and double after each failed attempt (nine radii, the
ninth being the cap 2⁻⁸ itself); the first time the radius exceeds the
cap the schedule restarts once at 2⁻¹⁶·1.01 (eight more radii); the
second time the radius exceeds the cap is fatal. -/
def claimedSchedule : List ℚ :=
  (List.range 9).map (fun i => bufferStart * 2 ^ i) ++
    (List.range 8).map (fun i => bufferStart * (101/100) * 2 ^ i)

/-- Reference semantics for the exception-driven wrapper, following the
spec's words: try the transform; after each failure smooth with the next
radius of the schedule; a failure after the schedule is exhausted is
fatal with that failure chained as the cause. -/
def scheduleRunExc {γ ε : Type} (func : γ → Except ε γ) (buf : γ → ℚ → γ) :
    List ℚ → γ → RetryResult γ ε
  | rs, g =>
      match func g with
      | .ok r => .ok r
      | .error e =>
          match rs with
          | [] => .fatal (some e)
          | r :: rest => scheduleRunExc func buf rest (buf g r)

/-- The radius state machine shared by both retry loops, read off as the
list of radii that would be applied if every attempt failed: current
radius `b` and the restarted-once flag, with at most `fuel` further
attempts.  Mirrors the radius updates of the loops exactly. -/
def mkSched : Nat → ℚ → Bool → List ℚ
  | 0, _, _ => []
  | fuel + 1, b, shouldFail =>
      if b > maxBuffer then
        if shouldFail then []
        else
          (bufferStart * (101/100)) :: mkSched fuel (2 * (bufferStart * (101/100))) true
      else b :: mkSched fuel (2 * b) shouldFail

/-- Reference semantics for the predicate-driven wrapper: while the
predicate reports the result broken, smooth with the next radius of the
schedule and re-run; running out of schedule is fatal without a cause. -/
def scheduleRunCond {γ : Type} (func : γ → γ) (cond : γ → Bool) (buf : γ → ℚ → γ) :
    List ℚ → γ → γ → RetryResult γ Unit
  | rs, g, result =>
      if cond result then
        match rs with
        | [] => .fatal none
        | r :: rest => scheduleRunCond func cond buf rest (buf g r) (func (buf g r))
      else .ok result

/-- The geometry-kernel operations `fix_multipolygons` consumes:
area, the MultiPolygon test, the double smoothing
geom.buffer(b).buffer(-b), and the component list geom.geoms. -/
structure GeomOps (γ : Type) where
  area : γ → ℚ
  isMultiPolygon : γ → Bool
  bufferPair : γ → ℚ → γ
  subPolygons : γ → List γ

/-- Errors `fix_multipolygons` can raise: the per-row RuntimeError when
no repair works, and the output-schema failure when a MultiPolygon
remains (clean.py lines 13-19 and 52, 56). -/
inductive CleanError where
  | unfixableMultiPolygon
  | schemaViolation
deriving DecidableEq

/-- The raw buffer radii of `fix_multipolygons` before sorting
(clean.py lines 28-31): 2⁻⁴·2ⁱ for i < 10 and the same values
perturbed by the factor 1.01. -/
def rawBuffers : List ℚ :=
  (List.range 10).map (fun i => (1/2^4) * 2 ^ i) ++
    ((List.range 10).map (fun i => (1/2^4) * 2 ^ i)).map (fun b => b * (101/100))

/-- Insertion step of python sorted() over rationals. -/
def insertQ (x : ℚ) : List ℚ → List ℚ
  | [] => [x]
  | y :: l => if x ≤ y then x :: y :: l else y :: insertQ x l

/-- python sorted(): ascending sort of the radii list. -/
def sortQ : List ℚ → List ℚ
  | [] => []
  | x :: l => insertQ x (sortQ l)

/-- The sorted trial radii of `fix_multipolygons` (clean.py line 32). -/
def fixBuffers : List ℚ := sortQ rawBuffers

/-- Acceptance test for one trial radius (clean.py line 41): the
smoothed result has positive area and is not a MultiPolygon. -/
def bufferSucceeds {γ : Type} (ops : GeomOps γ) (g : γ) (b : ℚ) : Bool :=
  decide (0 < ops.area (ops.bufferPair g b)) && !(ops.isMultiPolygon (ops.bufferPair g b))

/-- The for-loop over trial radii (clean.py lines 39-44): the first
radius whose smoothing succeeds, applied. -/
def tryBuffers {γ : Type} (ops : GeomOps γ) (g : γ) : Option γ :=
  (fixBuffers.find? (bufferSucceeds ops g)).map (fun b => ops.bufferPair g b)

/-- Repair of a single MultiPolygon row (clean.py lines 39-52): first
the radius schedule, then the for-else fallback keeping the unique
sub-polygon whose relative area exceeds 10⁻⁸ when exactly one exists,
else the fatal per-row error. -/
def fixOneMultiPolygon {γ : Type} (ops : GeomOps γ) (g : γ) : Except CleanError γ :=
  match tryBuffers ops g with
  | some res => .ok res
  | none =>
      match (ops.subPolygons g).filter (fun s => decide (ops.area s / ops.area g > 1/10^8)) with
      | [s] => .ok s
      | _ => .error .unfixableMultiPolygon

/-- The row loop of `fix_multipolygons` (clean.py lines 34-52):
geometries that are not MultiPolygons are skipped; the first
irreparable row aborts the whole call. -/
def fixAll {γ : Type} (ops : GeomOps γ) : List γ → Except CleanError (List γ)
  | [] => .ok []
  | g :: rest =>
      match (if ops.isMultiPolygon g then fixOneMultiPolygon ops g else .ok g) with
      | .error e => .error e
      | .ok r =>
          match fixAll ops rest with
          | .error e => .error e
          | .ok rs => .ok (r :: rs)

/-- Model of `fix_multipolygons` (clean.py lines 22-57): repair each row, then
validate the output schema, which rejects any remaining MultiPolygon. -/
def fixMultipolygons {γ : Type} (ops : GeomOps γ) (gs : List γ) : Except CleanError (List γ) :=
  match fixAll ops gs with
  | .error e => .error e
  | .ok fixed =>
      if fixed.any ops.isMultiPolygon then .error .schemaViolation else .ok fixed

/-- Ascending (weak) ordering check for a radius list. -/
def ascendingQ : List ℚ → Bool
  | [] => true
  | [_] => true
  | x :: y :: l => decide (x ≤ y) && ascendingQ (y :: l)

/-- Concrete kernel for the C7 witness: integers as geometries, negative
values standing for MultiPolygons, every smoothing producing the
constant geometry 7. -/
def c7Ops : GeomOps ℤ :=
  { area := fun g => (g.natAbs : ℚ)
    isMultiPolygon := fun g => decide (g < 0)
    bufferPair := fun _ _ => 7
    subPolygons := fun _ => [] }

/-- The geometry-kernel operations `fix_overlapping_geometries`
consumes: pairwise difference, the MultiPolygon test, area, and the
area of the unary union of a geometry column. -/
structure OverlapOps (γ : Type) where
  difference : γ → γ → γ
  isMultiPolygon : γ → Bool
  area : γ → ℚ
  unionArea : List γ → ℚ

/-- Errors of the overlap eliminator: the output-schema area check
(clean.py lines 64-73) and exhaustion of the loop fuel (an embedding
artifact; the source loop terminates because each restart records a new
broken pair). -/
inductive OverlapError where
  | schemaViolation
  | fuelExhausted
deriving DecidableEq

/-- State of the pairwise-subtraction loop of
`fix_overlapping_geometries` (clean.py lines 79-128): the geometry
column of the frame (mutated on each reversed subtraction), the working
list, the two cursors, and the set of pairs already reversed once. -/
structure OverlapState (γ : Type) where
  base : List γ
  ws : List γ
  refIdx : Nat
  otherIdx : Nat
  broken : List (Nat × Nat)

/-- One traversal step plus the end-of-pass cursor update (clean.py
lines 82-128), as a fuel-bounded recursion.  `difference other ref`
removes the overlap with the reference; a MultiPolygon difference is
reversed once per pair (restarting the scan from (0,1)), and a second
occurrence of the same pair is skipped. -/
def overlapLoop {γ : Type} [Inhabited γ] (ops : OverlapOps γ) :
    Nat → OverlapState γ → Except OverlapError (List γ)
  | 0, _ => .error .fuelExhausted
  | fuel + 1, st =>
      if st.refIdx < st.ws.length - 1 ∧ st.otherIdx < st.ws.length then
        let ref := st.ws.getD st.refIdx default
        let other := st.ws.getD st.otherIdx default
        let diffed := ops.difference other ref
        let st' : OverlapState γ :=
          if ops.isMultiPolygon diffed then
            if (st.refIdx, st.otherIdx) ∈ st.broken then
              { st with otherIdx := st.otherIdx + 1 }
            else
              let ref' := st.base.getD st.refIdx default
              let other' := st.base.getD st.otherIdx default
              let newRef := ops.difference ref' other'
              { base := st.base.set st.refIdx newRef
                ws := st.base.set st.refIdx newRef
                refIdx := 0
                otherIdx := 1
                broken := st.broken ++ [(st.refIdx, st.otherIdx)] }
          else
            { st with ws := st.ws.set st.otherIdx diffed, otherIdx := st.otherIdx + 1 }
        let st'' : OverlapState γ :=
          if st'.otherIdx = st'.ws.length then
            { st' with refIdx := st'.refIdx + 1, otherIdx := st'.refIdx + 2 }
          else st'
        overlapLoop ops fuel st''
      else .ok st.ws

/-- The output-schema acceptance check of the overlap eliminator
(clean.py lines 64-73):
abs(total_area - unary_union_area) / unary_union_area < 1e-8. -/
def overlapAreaCheck {γ : Type} (ops : OverlapOps γ) (ws : List γ) : Prop :=
  abs ((ws.map ops.area).sum - ops.unionArea ws) / ops.unionArea ws < 1/10^8

instance {γ : Type} (ops : OverlapOps γ) (ws : List γ) : Decidable (overlapAreaCheck ops ws) := by
  unfold overlapAreaCheck; infer_instance

/-- Model of `fix_overlapping_geometries` (clean.py lines 76-134): run the
pairwise-subtraction loop from cursors (0,1) with no broken pairs, write
the working list back, and validate the output schema. -/
def fixOverlappingGeometries {γ : Type} [Inhabited γ] (ops : OverlapOps γ) (fuel : Nat)
    (gs : List γ) : Except OverlapError (List γ) :=
  match overlapLoop ops fuel
      { base := gs, ws := gs, refIdx := 0, otherIdx := 1, broken := [] } with
  | .error e => .error e
  | .ok ws => if overlapAreaCheck ops ws then .ok ws else .error .schemaViolation

/-- Concrete kernel for the C8 witness: rationals as geometries, the
difference keeping its left argument, areas summed directly. -/
def c8Ops : OverlapOps ℚ :=
  { difference := fun a _ => a
    isMultiPolygon := fun _ => false
    area := fun g => g
    unionArea := fun l => l.sum }

/-- A row of the `CollapsableSchema` (merge.py lines 84-94): partition
attributes plus the `mergeable` flag. -/
structure CRow (γ : Type) where
  shapeId : Option String
  shapeName : Option String
  parentId : String
  pttp : String
  level : Option ℚ
  geometry : γ
  mergeable : Bool
deriving DecidableEq

/-- One exploded coarse row as used by `Harmonizer.run`: unique
`shape_id`, a name, a path, a level and a single-polygon geometry. -/
structure CoarseRow (γ : Type) where
  shapeId : String
  shapeName : String
  pttp : String
  level : ℚ
  geometry : γ
deriving DecidableEq

/-- The grouping key of `dissolve(by=["parent_id", "path_to_top_parent"])`. -/
def cKey {γ : Type} (r : CRow γ) : String × String := (r.parentId, r.pttp)

/-- Model of `dissolve(by=["parent_id", "path_to_top_parent"])` over collapsable
rows: one output row per distinct key, carrying the first group row's
attributes and the union of the group geometries. -/
def dissolveByParentPath {γ : Type} (unionAll : List γ → γ) (rows : List (CRow γ)) :
    List (CRow γ) :=
  ((rows.map cKey).dedup).filterMap (fun k =>
    match rows.filter (fun r => decide (cKey r = k)) with
    | [] => none
    | r :: rest => some { r with geometry := unionAll ((r :: rest).map (fun s => s.geometry)) })

/-- The degenerate-parent branch of `Harmonizer.run` (harmonize.py
lines 82-88): when every fragment of the parent is mergeable, dissolve
by (parent_id, path_to_top_parent) and overwrite `level` with the
coarse level plus one, `shape_name` with the coarse name, and
`mergeable` with false; otherwise the frame passes through. -/
def degenerateDissolve {γ : Type} (unionAll : List γ → γ) (coarse : CoarseRow γ)
    (detailed : List (CRow γ)) : List (CRow γ) :=
  if detailed.all (fun r => r.mergeable) then
    (dissolveByParentPath unionAll detailed).map (fun r =>
      { r with level := some (coarse.level + 1), shapeName := some coarse.shapeName,
               mergeable := false })
  else detailed

/-- First fragment of the C9 witness parent: mergeable, geometry 2. -/
def c9Frag1 : CRow ℚ :=
  { shapeId := some "S1", shapeName := some "N1", parentId := "P", pttp := "T"
    level := some 2, geometry := 2, mergeable := true }

/-- Second fragment of the C9 witness parent: mergeable, geometry 3. -/
def c9Frag2 : CRow ℚ :=
  { shapeId := some "S2", shapeName := some "N2", parentId := "P", pttp := "T"
    level := some 2, geometry := 3, mergeable := true }

/-- The C9 witness coarse row: level 3, name "CN", geometry 5 (the
union — here the sum — of the fragment geometries). -/
def c9Coarse : CoarseRow ℚ :=
  { shapeId := "P", shapeName := "CN", pttp := "T", level := 3, geometry := 5 }

/-- A row of the frame `simple_merge` works on: indexed by `alg_id`,
carrying the collapsable attributes plus the working `merge_id`. -/
structure SRow (γ : Type) where
  algId : Nat
  shapeId : Option String
  shapeName : Option String
  parentId : String
  pttp : String
  level : Option ℚ
  geometry : γ
  mergeable : Bool
  mergeId : Nat
deriving DecidableEq

/-- The geometry-kernel operations `simple_merge` consumes: area, the
overlap area of a neighbor against the fragment's 1-unit buffer
(n.intersection(g.buffer(1)).area), the spatial-index candidate query
(returning row positions), the post-dissolve smoothing
buffer(1).buffer(-1), and the dissolve union. -/
structure MergeOps (γ : Type) where
  area : γ → ℚ
  overlapArea : γ → γ → ℚ
  sindexQuery : List (SRow γ) → γ → List Nat
  bufferSmooth : γ → γ
  unionAll : List γ → γ

/-- One row of the per-fragment neighbor frame built in the loop of
`simple_merge` (merge.py lines 156-169). -/
structure NRow where
  algId : Nat
  nid : Nat
  overlap : ℚ
  pOverlap : ℚ
  nCount : Nat
  verySmall : Bool
deriving DecidableEq

/-- Model of `gdf.iloc[gdf.sindex.query(g)].drop(aid)` (merge.py line 159): the
rows at the queried positions, without the fragment's own label.
Out-of-range positions are dropped (the spatial index only returns
valid positions). -/
def neighborFrame {γ : Type} (ops : MergeOps γ) (gdf : List (SRow γ)) (row : SRow γ) :
    List (SRow γ) :=
  ((ops.sindexQuery gdf row.geometry).filterMap (fun p => gdf.get? p)).filter
    (fun s => s.algId ≠ row.algId)

/-- One neighbor row (merge.py lines 160-163): the overlap against the
fragment's 1-unit buffer, its share of the fragment's total overlap,
and the count of neighbors with share above 0.01.  A zero total overlap
is embedded as share 0, which compares exactly like the float NaN in
every comparison the code performs. -/
def mkNRow {γ : Type} (ops : MergeOps γ) (row : SRow γ) (n : List (SRow γ)) (s : SRow γ) :
    NRow :=
  let total := (n.map (fun u => ops.overlapArea row.geometry u.geometry)).sum
  { algId := s.algId
    nid := row.algId
    overlap := ops.overlapArea row.geometry s.geometry
    pOverlap := ops.overlapArea row.geometry s.geometry / total
    nCount := n.countP (fun t => decide (ops.overlapArea row.geometry t.geometry / total > 1/100))
    verySmall := false }

/-- The very-small rewrite of a neighbor frame (merge.py lines
164-166): zero every share and flag only the first row very_small. -/
def zeroSmall : List NRow → List NRow
  | [] => []
  | b :: rest =>
      { b with pOverlap := 0, verySmall := true } ::
        rest.map (fun nr => { nr with pOverlap := 0 })

/-- The neighbor rows of one mergeable fragment (merge.py lines
157-169): the neighbor frame with overlap statistics, rewritten by the
very-small rule when the fragment's area is at most 10⁻³.  (For a very
small fragment with an empty neighbor frame the source raises a
length-mismatch error; the embedding returns no rows.) -/
def neighborRows {γ : Type} (ops : MergeOps γ) (gdf : List (SRow γ)) (row : SRow γ) :
    List NRow :=
  let base := (neighborFrame ops gdf row).map (mkNRow ops row (neighborFrame ops gdf row))
  if ops.area row.geometry ≤ 1/1000 then zeroSmall base else base

/-- Model of `neighbors = pd.concat(neighbors_list)` (merge.py line 170): the
neighbor rows of all mergeable fragments, in frame order. -/
def allNeighborRows {γ : Type} (ops : MergeOps γ) (gdf : List (SRow γ)) : List NRow :=
  ((gdf.filter (fun r => r.mergeable)).map (neighborRows ops gdf)).flatten

/-- Maximum of a rational list, `none` on the empty list. -/
def maxQ : List ℚ → Option ℚ
  | [] => none
  | x :: l =>
      match maxQ l with
      | none => some x
      | some m => some (max x m)

/-- Model of `neighbors.groupby("nid")["p_overlap"].transform("max")` (merge.py
line 172) read off for one group: the maximum overlap share among rows
with the given `nid`. -/
def maxPOf (nrs : List NRow) (a : Nat) : ℚ :=
  (maxQ ((nrs.filter (fun nr => nr.nid = a)).map (fun nr => nr.pOverlap))).getD 0

/-- Model of `meets_criteria` (merge.py lines 173-177): the share reaches the
row-wise threshold np.maximum(max_p, threshold) and the neighbor count
is within bounds. -/
def meetsCriteria (nrs : List NRow) (threshold : ℚ) (neighborCount : Nat) (nr : NRow) : Bool :=
  decide (nr.pOverlap ≥ max (maxPOf nrs nr.nid) threshold) &&
    decide (nr.nCount ≤ neighborCount)

/-- Model of `merge_map` before cycle-breaking (merge.py lines 178-183): the
(nid, alg_id) pairs of neighbor rows passing very_small or
meets_criteria. -/
def mergeMapPre {γ : Type} (ops : MergeOps γ) (gdf : List (SRow γ)) (threshold : ℚ)
    (neighborCount : Nat) : List (Nat × Nat) :=
  let nrs := allNeighborRows ops gdf
  (nrs.filter (fun nr => nr.verySmall || meetsCriteria nrs threshold neighborCount nr)).map
    (fun nr => (nr.nid, nr.algId))

/-- Model of `gdf.area.loc[label]`: the area of the row with the given alg_id
(labels are unique in the frames the harmonizer builds). -/
def areaOfId {γ : Type} (ops : MergeOps γ) (gdf : List (SRow γ)) (a : Nat) : ℚ :=
  ((gdf.find? (fun r => r.algId = a)).map (fun r => ops.area r.geometry)).getD 0

/-- The cycle-breaking drop list (merge.py lines 184-191): for each
proposed edge whose target is itself being merged, drop the
smaller-area endpoint. -/
def dropList {γ : Type} (ops : MergeOps γ) (gdf : List (SRow γ)) (mm : List (Nat × Nat)) :
    List Nat :=
  mm.foldl (fun acc pr =>
    if (mm.map Prod.fst).contains pr.2 then
      if areaOfId ops gdf pr.1 > areaOfId ops gdf pr.2 then acc ++ [pr.2] else acc ++ [pr.1]
    else acc) []

/-- Model of `merge_map.drop(drop)` (merge.py line 192): remove every edge whose
source label is in the drop list. -/
def mergeMapFinal {γ : Type} (ops : MergeOps γ) (gdf : List (SRow γ)) (threshold : ℚ)
    (neighborCount : Nat) : List (Nat × Nat) :=
  let mm := mergeMapPre ops gdf threshold neighborCount
  mm.filter (fun pr => !(dropList ops gdf mm).contains pr.1)

/-- Model of `gdf.loc[merge_map.index, "merge_id"] = merge_map` (merge.py line
195): rows named by the map take their target's label as merge_id. -/
def applyMergeIds {γ : Type} (gdf : List (SRow γ)) (mm : List (Nat × Nat)) : List (SRow γ) :=
  gdf.map (fun r =>
    match mm.find? (fun pr => pr.1 = r.algId) with
    | some pr => { r with mergeId := pr.2 }
    | none => r)

/-- NaN-last comparison on nullable shape names, as pandas sort_values
orders them. -/
def nameLe : Option String → Option String → Bool
  | none, none => true
  | none, some _ => false
  | some _, none => true
  | some x, some y => decide (x ≤ y)

/-- The sort key of `gdf.sort_values(["mergeable", "shape_name"])`
(merge.py line 198): references (mergeable = false) before mergeable
rows, ties ordered by shape name. -/
def rowLe {γ : Type} (a b : SRow γ) : Bool :=
  if a.mergeable = b.mergeable then nameLe a.shapeName b.shapeName
  else !a.mergeable

/-- Model of `sort_values(["mergeable", "shape_name"])`: a sort by `rowLe`.  The
source's quicksort is unstable; every property proved here depends only
on the comparator, not on tie order. -/
def sortSRows {γ : Type} (rows : List (SRow γ)) : List (SRow γ) :=
  List.insertionSort (fun a b => rowLe a b = true) rows

/-- Model of `dissolve(by="merge_id")` over the sorted frame plus the
post-dissolve steps (merge.py lines 197-206): one row per merge_id,
attributes from the group's first row in sort order, geometry the
smoothed union of the group, and alg_id reset to merge_id. -/
def dissolveByMergeId {γ : Type} (ops : MergeOps γ) (rows : List (SRow γ)) : List (SRow γ) :=
  ((rows.map (fun r => r.mergeId)).dedup).filterMap (fun k =>
    match (sortSRows rows).filter (fun r => r.mergeId = k) with
    | [] => none
    | r :: rest =>
        some { r with
                geometry := ops.bufferSmooth (ops.unionAll ((r :: rest).map (fun s => s.geometry)))
                algId := k
                mergeId := k })

/-- The one failure mode of `simple_merge`: the assertion at merge.py
line 194 that no fragment is assigned two merge targets. -/
inductive MergeError where
  | assertionFailed
deriving DecidableEq

/-- Model of `simple_merge` (merge.py lines 145-206): pass the frame through when
nothing is mergeable; otherwise build the merge map, check the
no-duplicate-source assertion, write the merge ids and dissolve. -/
def simpleMerge {γ : Type} (ops : MergeOps γ) (threshold : ℚ) (neighborCount : Nat)
    (gdf : List (SRow γ)) : Except MergeError (List (SRow γ)) :=
  if !(gdf.any (fun r => r.mergeable)) then .ok gdf
  else
    let mm := mergeMapFinal ops gdf threshold neighborCount
    if (mm.map Prod.fst).Nodup then
      .ok (dissolveByMergeId ops (applyMergeIds gdf mm))
    else .error .assertionFailed

/-- At most one neighbor row of the fragment attains the maximal
overlap share among its group (no tie at the top). -/
def tieFree {γ : Type} (ops : MergeOps γ) (gdf : List (SRow γ)) (m : SRow γ) : Prop :=
  ((neighborRows ops gdf m).filter (fun nr =>
      decide (nr.pOverlap = maxPOf (allNeighborRows ops gdf) m.algId))).length ≤ 1

/-- C3 counterexample fragment: a very small mergeable fragment
(geometry 100, area 1/2000). -/
def c3Row0 : SRow Nat :=
  { algId := 0, shapeId := none, shapeName := none, parentId := "P", pttp := "T"
    level := some 2, geometry := 100, mergeable := true, mergeId := 0 }

/-- C3 counterexample reference returned first by the spatial index
(geometry 101, overlap 1 with the fragment's buffer). -/
def c3Row1 : SRow Nat :=
  { algId := 1, shapeId := some "R1", shapeName := some "A", parentId := "P", pttp := "T"
    level := some 2, geometry := 101, mergeable := false, mergeId := 1 }

/-- C3 counterexample reference with the larger overlap (geometry 102,
overlap 5 with the fragment's buffer). -/
def c3Row2 : SRow Nat :=
  { algId := 2, shapeId := some "R2", shapeName := some "B", parentId := "P", pttp := "T"
    level := some 2, geometry := 102, mergeable := false, mergeId := 2 }

/-- The C3 counterexample frame. -/
def c3Gdf : List (SRow Nat) := [c3Row0, c3Row1, c3Row2]

/-- Concrete kernel for the C3 counterexample: the fragment 100 is very
small; its overlap is 1 against neighbor 101 and 5 against neighbor
102; the spatial index returns positions 0, 1, 2 in order. -/
def c3Ops : MergeOps Nat :=
  { area := fun g => if g = 100 then 1/2000 else 10
    overlapArea := fun frag nb =>
      if frag = 100 ∧ nb = 101 then 1 else if frag = 100 ∧ nb = 102 then 5 else 0
    sindexQuery := fun _ _ => [0, 1, 2]
    bufferSmooth := id
    unionAll := fun l => l.headD 0 }

/-- C10 counterexample fragment: mergeable, not very small (area 1),
with two neighbors tied at overlap 3 each. -/
def c10Row0 : SRow Nat :=
  { algId := 0, shapeId := none, shapeName := none, parentId := "P", pttp := "T"
    level := some 2, geometry := 200, mergeable := true, mergeId := 0 }

/-- C10 counterexample: first tied reference neighbor. -/
def c10Row1 : SRow Nat :=
  { algId := 1, shapeId := some "R1", shapeName := some "A", parentId := "P", pttp := "T"
    level := some 2, geometry := 201, mergeable := false, mergeId := 1 }

/-- C10 counterexample: second tied reference neighbor. -/
def c10Row2 : SRow Nat :=
  { algId := 2, shapeId := some "R2", shapeName := some "B", parentId := "P", pttp := "T"
    level := some 2, geometry := 202, mergeable := false, mergeId := 2 }

/-- The C10 counterexample frame. -/
def c10Gdf : List (SRow Nat) := [c10Row0, c10Row1, c10Row2]

/-- Concrete kernel for the C10 counterexample: the fragment 200
overlaps both neighbors by exactly 3, producing a tie of overlap shares
at 1/2 ≥ threshold for both. -/
def c10Ops : MergeOps Nat :=
  { area := fun _ => 1
    overlapArea := fun frag nb => if frag = 200 ∧ (nb = 201 ∨ nb = 202) then 3 else 0
    sindexQuery := fun _ _ => [0, 1, 2]
    bufferSmooth := id
    unionAll := fun l => l.headD 0 }

/-- C4 witness: a reference row carrying merge_id 7. -/
def c4bRef : SRow Nat :=
  { algId := 1, shapeId := some "R1", shapeName := some "A", parentId := "P", pttp := "T"
    level := some 2, geometry := 101, mergeable := false, mergeId := 7 }

/-- C4 witness: a mergeable row sharing merge_id 7 with the reference. -/
def c4bFrag : SRow Nat :=
  { algId := 0, shapeId := none, shapeName := none, parentId := "P", pttp := "T"
    level := some 2, geometry := 100, mergeable := true, mergeId := 7 }

/-- C4 witness: the output frame simple_merge produces on c3Gdf. -/
def c4O : List (SRow Nat) :=
  [{ algId := 1, shapeId := some "R1", shapeName := some "A", parentId := "P", pttp := "T"
     level := some 2, geometry := 101, mergeable := false, mergeId := 1 },
   { algId := 2, shapeId := some "R2", shapeName := some "B", parentId := "P", pttp := "T"
     level := some 2, geometry := 102, mergeable := false, mergeId := 2 }]

/-- The geometry-kernel operations of the base merger
`collapse_mergeable_geometries` (merge.py lines 109-142): area, plain
buffering, the area of qintersection(fragment, buffered reference), and
the dissolve union. -/
structure BaseMergeOps (γ : Type) where
  area : γ → ℚ
  buffer : γ → ℚ → γ
  qintersectionArea : γ → γ → ℚ
  unionAll : List γ → γ

/-- C4 witness reference row for the base merger. -/
def c4aRef : CRow ℚ :=
  { shapeId := some "R", shapeName := some "RN", parentId := "P", pttp := "T"
    level := some 2, geometry := 4, mergeable := false }

/-- C4 witness mergeable row for the base merger. -/
def c4aFrag : CRow ℚ :=
  { shapeId := some "F", shapeName := some "FN", parentId := "P", pttp := "T"
    level := some 2, geometry := 1, mergeable := true }

/-- C4 witness frame for the base merger. -/
def c4aGdf : List (CRow ℚ) := [c4aFrag, c4aRef]

/-- Concrete kernel for the base-merger witness. -/
def c4BaseOps : BaseMergeOps ℚ :=
  { area := fun g => g
    buffer := fun g b => g + b
    qintersectionArea := fun a _ => a
    unionAll := fun l => l.sum }

/-- The best-reference assignment of the base merger (merge.py lines
124-132): scanning references in merge_id order, a fragment's match is
updated whenever the overlap proportion strictly exceeds the best seen
(initially 0, merge_id initially null). -/
def baseAssign {γ : Type} (ops : BaseMergeOps γ) (bufferSize : ℚ) (refs : List (CRow γ))
    (m : CRow γ) : Option Nat :=
  (refs.enum.foldl (fun (best : Option Nat × ℚ) ir =>
    let ov := ops.qintersectionArea m.geometry (ops.buffer ir.2.geometry bufferSize) /
      ops.area m.geometry
    if ov > best.2 then (some ir.1, ov) else best) (none, 0)).1

/-- Model of `collapse_mergeable_geometries` (merge.py lines 109-142): number the
references 0..N−1 in frame order, assign each mergeable fragment to its
best buffered reference, dissolve by merge_id (null keys dropped), and
return the reference rows with their attributes intact and their
geometry replaced by the dissolved union. -/
def collapseMergeable {γ : Type} (ops : BaseMergeOps γ) (bufferSize : ℚ)
    (gdf : List (CRow γ)) : List (PRow γ) :=
  let refs := gdf.filter (fun r => !r.mergeable)
  let mrgs := gdf.filter (fun r => r.mergeable)
  refs.enum.map (fun ir =>
    ({ shapeId := ir.2.shapeId
       shapeName := ir.2.shapeName
       parentId := ir.2.parentId
       pttp := ir.2.pttp
       level := ir.2.level
       geometry := ops.unionAll (ir.2.geometry ::
         (mrgs.filter (fun m => baseAssign ops bufferSize refs m = some ir.1)).map
           (fun m => m.geometry)) } : PRow γ))

end Geofuse

namespace Geofuse

/-- C1. The claim states `sliver_geometry` iff
`detailed_fraction ≤ 0.2` and `compactness ≤ 0.05`.  On the frame
`c1Rows`, row A has `detailed_fraction = 3/20 ≤ 0.2` and
`compactness = 1/25 ≤ 0.05`, so the claim (and the spec's name-intended
rule) classifies it as a sliver, yet the code's rule
(`coarse_fraction ≤ compactness_threshold`, with `coarse_fraction = 1/2`)
leaves `sliver_geometry` false; the computed `compactness` column is
never consulted.  The flag still implies `mergeable` on every row of the
frame, confirming the claim's second conjunct on this input. -/
theorem c1_sliver_uses_coarse_fraction_not_compactness :
    cmpLe (rowStats geomArea geomBoundingArea c1Rows c1RowA).detailedFraction (2 * (1/10)) = true ∧
    cmpLe (rowStats geomArea geomBoundingArea c1Rows c1RowA).compactness (1/20) = true ∧
    sliverGeometry (rowStats geomArea geomBoundingArea c1Rows c1RowA) (1/20) (1/10) = false ∧
    sliverGeometrySpec (rowStats geomArea geomBoundingArea c1Rows c1RowA) (1/20) (1/10) = true ∧
    c1Rows.all (fun r =>
      !(sliverGeometry (rowStats geomArea geomBoundingArea c1Rows r) (1/20) (1/10)) ||
        mergeableFlag geomArea geomBoundingArea (1/20) (1/10) (1/10) c1Rows r) = true := by
  refine ⟨?_, ?_, ?_, ?_, ?_⟩ <;> with_unfolding_all rfl

/-- C2 counterexample.  With one coarse geometry of area 10 and one
detailed geometry of area 1, the area error is −90, whose absolute
value is far above 0.2, so the claim says the overlap eliminator is
skipped and the frame returned unchanged; but the code's signed gate
(−90 < 0.2) runs the eliminator, so the output differs from the input
whenever the eliminator changes anything. -/
theorem c2_counterexample_negative_error_runs_eliminator :
    decide (correctArea id (List.map (fun g : ℚ => g + 1)) [10] [1] = [1]) = false ∧
    decide (abs (computeAreaError id [10] [1]) < 1/5) = false := by
  exact ⟨by with_unfolding_all rfl, by with_unfolding_all rfl⟩

/-- C2 (amended).  `Harmonizer.correct_area` runs
`fix_overlapping_geometries` if and only if the signed pre-correction
area error is strictly less than 0.2 (so a large negative error still
runs it); when that signed gate fails, the detailed frame is returned
unchanged.  The hypothesis pins the regime (positive total coarse area)
in which the rational embedding of the float division is exact. -/
theorem c2_area_gate_is_signed {γ : Type} (area : γ → ℚ) (fixOverlaps : List γ → List γ)
    (coarse detailed : List γ) (_hpos : 0 < (coarse.map area).sum) :
    (computeAreaError area coarse detailed < 1/5 →
      correctArea area fixOverlaps coarse detailed = fixOverlaps detailed) ∧
    (¬ computeAreaError area coarse detailed < 1/5 →
      correctArea area fixOverlaps coarse detailed = detailed) := by
  unfold correctArea
  exact ⟨fun hc => by rw [if_pos hc], fun hc => by rw [if_neg hc]⟩

/-- C2 witness: the amended gate at two concrete inputs, one with a
large negative error (eliminator runs) and one with a large positive
error (frame unchanged). -/
theorem c2_area_gate_is_signed_witness :
    correctArea id (List.map (fun g : ℚ => g + 1)) [10] [1] = [2] ∧
    correctArea id (List.map (fun g : ℚ => g + 1)) [10] [11] = [11] := by
  constructor
  · have h := (c2_area_gate_is_signed id (List.map (fun g : ℚ => g + 1)) [10] [1]
      (of_decide_eq_true (by with_unfolding_all rfl))).1
      (of_decide_eq_true (by with_unfolding_all rfl))
    rw [h]; with_unfolding_all rfl
  · exact (c2_area_gate_is_signed id (List.map (fun g : ℚ => g + 1)) [10] [11]
      (of_decide_eq_true (by with_unfolding_all rfl))).2
      (of_decide_eq_false (by with_unfolding_all rfl))

/-- Bound and exit condition for the collapse loop: the iteration count
never exceeds the budget, and an early exit implies the continuation
test failed on the final frame. -/
theorem collapseGo_bound {δ : Type} (step : δ → δ) (stats : δ → ℚ × ℚ) :
    ∀ (rem iters : Nat) (d : δ),
      (collapseGo step stats rem iters d).2 ≤ iters + rem ∧
      ((collapseGo step stats rem iters d).2 < iters + rem →
        ¬ collapseContinue stats (collapseGo step stats rem iters d).1)
  | 0, iters, d => by
      simp [collapseGo]
  | rem + 1, iters, d => by
      by_cases h : collapseContinue stats d
      · simp only [collapseGo, if_pos h]
        have ih := collapseGo_bound step stats rem (iters + 1) (step d)
        refine ⟨by omega, fun hlt => ih.2 (by omega)⟩
      · simp only [collapseGo, if_neg h]
        exact ⟨by omega, fun _ => h⟩

/-- C6.  For every parent, the collapse loop body runs at most
`max_step_iterations = 5` times; if the mergeable statistics are already
within tolerance it runs zero times; and an early exit (fewer than 5
iterations) certifies the stop condition `mergeable_area ≤ 10⁻⁴` and
`mergeable_percent ≤ 10⁻⁴` on the final frame.  Termination is inherent:
`collapseGeometries` is a total function. -/
theorem c6_collapse_loop_bounded {δ : Type} (step : δ → δ) (stats : δ → ℚ × ℚ) (d : δ) :
    (collapseGeometries step stats d).2 ≤ maxStepIterations ∧
    (¬ collapseContinue stats d → collapseGeometries step stats d = (d, 0)) ∧
    ((collapseGeometries step stats d).2 < maxStepIterations →
      ¬ collapseContinue stats (collapseGeometries step stats d).1) := by
  refine ⟨?_, ?_, ?_⟩
  · simpa [collapseGeometries] using (collapseGo_bound step stats maxStepIterations 0 d).1
  · intro h
    simp [collapseGeometries, maxStepIterations, collapseGo, if_neg h]
  · intro h
    exact (collapseGo_bound step stats maxStepIterations 0 d).2 (by simpa [collapseGeometries] using h)

/-- With enough fuel remaining, the exception-driven retry loop runs the
reference semantics over the radius list its state machine generates. -/
theorem bufferLoopExc_eq_scheduleRun {γ ε : Type} (func : γ → Except ε γ)
    (buf : γ → ℚ → γ) :
    ∀ (fuel : Nat) (b : ℚ) (shouldFail : Bool) (g : γ),
      (mkSched fuel b shouldFail).length < fuel →
      bufferLoopExc func buf fuel g b shouldFail =
        scheduleRunExc func buf (mkSched fuel b shouldFail) g := by
  intro fuel
  induction fuel with
  | zero => intro b sf g h; simp [mkSched] at h
  | succ n ih =>
      intro b sf g h
      have hstep : bufferLoopExc func buf (n + 1) g b sf =
          match func g with
          | .ok r => .ok r
          | .error e =>
              if b > maxBuffer then
                if sf then RetryResult.fatal (some e)
                else
                  bufferLoopExc func buf n (buf g (bufferStart * (101/100)))
                    (2 * (bufferStart * (101/100))) true
              else bufferLoopExc func buf n (buf g b) (2 * b) sf := rfl
      by_cases hb : b > maxBuffer
      · cases sf with
        | true =>
            have hm0 : mkSched (n + 1) b true = [] := by simp [mkSched, hb]
            have hsched : scheduleRunExc func buf [] g =
                match func g with
                | .ok r => .ok r
                | .error e => RetryResult.fatal (some e) := by
              rw [scheduleRunExc.eq_def]
            rw [hm0, hstep, hsched]
            cases hfg : func g with
            | ok r => rfl
            | error e =>
                simp only [if_pos hb]
                rfl
        | false =>
            have hm0 : mkSched (n + 1) b false =
                (bufferStart * (101/100)) :: mkSched n (2 * (bufferStart * (101/100))) true := by
              simp [mkSched, hb]
            have hsched : scheduleRunExc func buf
                ((bufferStart * (101/100)) :: mkSched n (2 * (bufferStart * (101/100))) true) g =
                match func g with
                | .ok r => .ok r
                | .error e =>
                    scheduleRunExc func buf (mkSched n (2 * (bufferStart * (101/100))) true)
                      (buf g (bufferStart * (101/100))) := by
              rw [scheduleRunExc.eq_def]
            rw [hm0] at h
            rw [hm0, hstep, hsched]
            cases hfg : func g with
            | ok r => rfl
            | error e =>
                have hlt : (mkSched n (2 * (bufferStart * (101/100))) true).length < n := by
                  simp only [List.length_cons] at h; omega
                have hrec := ih (2 * (bufferStart * (101/100))) true
                  (buf g (bufferStart * (101/100))) hlt
                simp only [if_pos hb]
                exact hrec
      · have hm0 : mkSched (n + 1) b sf = b :: mkSched n (2 * b) sf := by
          simp [mkSched, hb]
        have hsched : scheduleRunExc func buf (b :: mkSched n (2 * b) sf) g =
            match func g with
            | .ok r => .ok r
            | .error e => scheduleRunExc func buf (mkSched n (2 * b) sf) (buf g b) := by
          rw [scheduleRunExc.eq_def]
        rw [hm0] at h
        rw [hm0, hstep, hsched]
        cases hfg : func g with
        | ok r => rfl
        | error e =>
            have hlt : (mkSched n (2 * b) sf).length < n := by
              simp only [List.length_cons] at h; omega
            have hrec := ih (2 * b) sf (buf g b) hlt
            simp only [if_neg hb]
            exact hrec

/-- With enough fuel remaining, the predicate-driven retry loop runs the
reference semantics over the radius list its state machine generates. -/
theorem bufferLoopCond_eq_scheduleRun {γ : Type} (func : γ → γ) (cond : γ → Bool)
    (buf : γ → ℚ → γ) :
    ∀ (fuel : Nat) (b : ℚ) (shouldFail : Bool) (g result : γ),
      (mkSched fuel b shouldFail).length < fuel →
      bufferLoopCond func cond buf fuel g result b shouldFail =
        scheduleRunCond func cond buf (mkSched fuel b shouldFail) g result := by
  intro fuel
  induction fuel with
  | zero => intro b sf g result h; simp [mkSched] at h
  | succ n ih =>
      intro b sf g result h
      have hstep : bufferLoopCond func cond buf (n + 1) g result b sf =
          (if cond result then
            if b > maxBuffer then
              if sf then RetryResult.fatal none
              else
                bufferLoopCond func cond buf n (buf g (bufferStart * (101/100)))
                  (func (buf g (bufferStart * (101/100)))) (2 * (bufferStart * (101/100))) true
            else bufferLoopCond func cond buf n (buf g b) (func (buf g b)) (2 * b) sf
          else RetryResult.ok result) := rfl
      cases hc : cond result with
      | false =>
          have hsched : scheduleRunCond func cond buf (mkSched (n + 1) b sf) g result =
              (if cond result then
                match mkSched (n + 1) b sf with
                | [] => RetryResult.fatal none
                | r :: rest => scheduleRunCond func cond buf rest (buf g r) (func (buf g r))
              else RetryResult.ok result) := by
            rw [scheduleRunCond.eq_def]
          rw [hstep, hsched, hc]
          rfl
      | true =>
          by_cases hb : b > maxBuffer
          · cases sf with
            | true =>
                have hm0 : mkSched (n + 1) b true = [] := by simp [mkSched, hb]
                have hsched : scheduleRunCond func cond buf [] g result =
                    (if cond result then RetryResult.fatal none
                     else RetryResult.ok result) := by
                  rw [scheduleRunCond.eq_def]
                rw [hm0, hstep, hsched, hc, if_pos hb]
                rfl
            | false =>
                have hm0 : mkSched (n + 1) b false =
                    (bufferStart * (101/100)) ::
                      mkSched n (2 * (bufferStart * (101/100))) true := by
                  simp [mkSched, hb]
                have hsched : scheduleRunCond func cond buf
                    ((bufferStart * (101/100)) ::
                      mkSched n (2 * (bufferStart * (101/100))) true) g result =
                    (if cond result then
                      scheduleRunCond func cond buf
                        (mkSched n (2 * (bufferStart * (101/100))) true)
                        (buf g (bufferStart * (101/100)))
                        (func (buf g (bufferStart * (101/100))))
                     else RetryResult.ok result) := by
                  rw [scheduleRunCond.eq_def]
                rw [hm0] at h
                have hlt : (mkSched n (2 * (bufferStart * (101/100))) true).length < n := by
                  simp only [List.length_cons] at h; omega
                have hrec := ih (2 * (bufferStart * (101/100))) true
                  (buf g (bufferStart * (101/100)))
                  (func (buf g (bufferStart * (101/100)))) hlt
                rw [hm0, hstep, hsched, hc, if_pos hb]
                exact hrec
          · have hm0 : mkSched (n + 1) b sf = b :: mkSched n (2 * b) sf := by
              simp [mkSched, hb]
            have hsched : scheduleRunCond func cond buf (b :: mkSched n (2 * b) sf) g result =
                (if cond result then
                  scheduleRunCond func cond buf (mkSched n (2 * b) sf) (buf g b)
                    (func (buf g b))
                 else RetryResult.ok result) := by
              rw [scheduleRunCond.eq_def]
            rw [hm0] at h
            have hlt : (mkSched n (2 * b) sf).length < n := by
              simp only [List.length_cons] at h; omega
            have hrec := ih (2 * b) sf (buf g b) (func (buf g b)) hlt
            rw [hm0, hstep, hsched, hc, if_neg hb]
            exact hrec

/-- The radius state machine, started at 2⁻¹⁶ with the restart unused
and 100 attempts of fuel, generates exactly the claimed schedule. -/
theorem mkSched_eq_claimedSchedule :
    mkSched 100 bufferStart false = claimedSchedule := by
  with_unfolding_all rfl

/-- C5.  Both retry wrappers follow exactly the claimed schedule: for
every wrapped transform and smoothing operator, the exception-driven
loop equals the reference run over `claimedSchedule` — radii 2⁻¹⁶·2ⁱ for
i < 9, then, after the first cap crossing, a single restart with radii
2⁻¹⁶·1.01·2ⁱ for i < 8, the second cap crossing raising fatally with the
last exception chained as the cause — and the predicate-driven loop
equals the same schedule with its up-front transform call and a fatal
raise without a cause.  In particular neither loop runs out of fuel, and
in this pure embedding the caller's input is unchanged by construction. -/
theorem c5_retry_wrappers_follow_claimed_schedule {γ ε : Type}
    (func : γ → Except ε γ) (funcC : γ → γ) (cond : γ → Bool) (buf : γ → ℚ → γ) (g : γ) :
    bufferOnException func buf g = scheduleRunExc func buf claimedSchedule g ∧
    bufferOnCondition funcC cond buf g =
      scheduleRunCond funcC cond buf claimedSchedule g (funcC g) := by
  have hlen : (mkSched 100 bufferStart false).length < 100 := by
    rw [mkSched_eq_claimedSchedule]
    exact of_decide_eq_true (by with_unfolding_all rfl)
  constructor
  · rw [bufferOnException, bufferLoopExc_eq_scheduleRun func buf 100 bufferStart false g hlen,
      mkSched_eq_claimedSchedule]
  · rw [bufferOnCondition,
      bufferLoopCond_eq_scheduleRun funcC cond buf 100 bufferStart false g (funcC g) hlen,
      mkSched_eq_claimedSchedule]

/-- The first element of a list satisfying a predicate, when everything
before it fails the predicate, is what find? returns. -/
theorem find?_first {α : Type} (p : α → Bool) :
    ∀ (l1 : List α) (b : α) (l2 : List α),
      (∀ x ∈ l1, p x = false) → p b = true →
      (l1 ++ b :: l2).find? p = some b
  | [], b, l2, _, hb => by simp [List.find?, hb]
  | x :: l1, b, l2, h1, hb => by
      have hx : p x = false := h1 x (List.mem_cons_self x l1)
      simp only [List.cons_append, List.find?, hx]
      exact find?_first p l1 b l2 (fun y hy => h1 y (List.mem_cons_of_mem x hy)) hb

/-- The row loop of `fix_multipolygons` preserves length and leaves
every non-MultiPolygon row untouched. -/
theorem fixAll_ok {γ : Type} (ops : GeomOps γ) :
    ∀ (gs out : List γ), fixAll ops gs = .ok out →
      out.length = gs.length ∧
      ∀ (i : Nat) (hi : i < gs.length) (ho : i < out.length),
        ops.isMultiPolygon (gs.get ⟨i, hi⟩) = false → out.get ⟨i, ho⟩ = gs.get ⟨i, hi⟩
  | [], out, h => by
      simp only [fixAll, Except.ok.injEq] at h
      subst h
      exact ⟨rfl, by intro i hi; simp at hi⟩
  | g :: rest, out, h => by
      unfold fixAll at h
      cases hfix : (if ops.isMultiPolygon g then fixOneMultiPolygon ops g else Except.ok g) with
      | error e => rw [hfix] at h; simp at h
      | ok r =>
          rw [hfix] at h
          cases hrest : fixAll ops rest with
          | error e => rw [hrest] at h; simp at h
          | ok rs =>
              rw [hrest] at h
              simp only [Except.ok.injEq] at h
              subst h
              have ih := fixAll_ok ops rest rs hrest
              refine ⟨by simp [ih.1], ?_⟩
              intro i hi ho hmono
              cases i with
              | zero =>
                  simp only [List.get] at hmono ⊢
                  rw [if_neg (by simp [hmono])] at hfix
                  injection hfix with hgr
                  exact hgr.symm
              | succ j =>
                  simp only [List.get] at hmono ⊢
                  exact ih.2 j (Nat.lt_of_succ_lt_succ hi) (Nat.lt_of_succ_lt_succ ho) hmono

/-- C7.  `fix_multipolygons` tries exactly the 20 radii
{2⁻⁴·2ⁱ·k : i < 10, k ∈ {1, 1.01}} in ascending order (first
conjunct: the sorted schedule written out; second: it is ascending);
non-MultiPolygon rows pass through unchanged and a normal return
contains no MultiPolygon (third conjunct); a MultiPolygon row takes the
first radius whose smoothing has positive area and is no longer a
MultiPolygon (fourth conjunct); and when every radius fails, the row is
replaced by the unique sub-polygon of relative area above 10⁻⁸ when
exactly one exists and is a fatal error otherwise (fifth conjunct). -/
theorem c7_fix_multipolygons_radii_and_output {γ : Type} (ops : GeomOps γ) :
    fixBuffers = [(1:ℚ)/16, 101/1600, 1/8, 101/800, 1/4, 101/400, 1/2, 101/200, 1,
      101/100, 2, 101/50, 4, 101/25, 8, 202/25, 16, 404/25, 32, 808/25] ∧
    ascendingQ fixBuffers = true ∧
    (∀ gs out, fixMultipolygons ops gs = .ok out →
      out.length = gs.length ∧
      (∀ (i : Nat) (hi : i < gs.length) (ho : i < out.length),
        ops.isMultiPolygon (gs.get ⟨i, hi⟩) = false → out.get ⟨i, ho⟩ = gs.get ⟨i, hi⟩) ∧
      out.all (fun g => !ops.isMultiPolygon g) = true) ∧
    (∀ g l1 b l2, fixBuffers = l1 ++ b :: l2 →
      (∀ x ∈ l1, bufferSucceeds ops g x = false) → bufferSucceeds ops g b = true →
      fixOneMultiPolygon ops g = .ok (ops.bufferPair g b)) ∧
    (∀ g, (∀ x ∈ fixBuffers, bufferSucceeds ops g x = false) →
      fixOneMultiPolygon ops g =
        match (ops.subPolygons g).filter (fun s => decide (ops.area s / ops.area g > 1/10^8)) with
        | [s] => .ok s
        | _ => .error .unfixableMultiPolygon) := by
  refine ⟨by with_unfolding_all rfl, by with_unfolding_all rfl, ?_, ?_, ?_⟩
  · intro gs out h
    unfold fixMultipolygons at h
    cases hfa : fixAll ops gs with
    | error e => rw [hfa] at h; simp at h
    | ok fixed =>
        rw [hfa] at h
        simp only at h
        by_cases hany : fixed.any ops.isMultiPolygon = true
        · rw [if_pos hany] at h; simp at h
        · rw [if_neg hany] at h
          simp only [Except.ok.injEq] at h
          subst h
          have hall := fixAll_ok ops gs _ hfa
          refine ⟨hall.1, hall.2, ?_⟩
          rw [List.all_eq_true]
          intro x hx
          have := (List.any_eq_false.mp (Bool.eq_false_iff.mpr hany)) x hx
          simp [this]
  · intro g l1 b l2 hsplit h1 hb
    unfold fixOneMultiPolygon tryBuffers
    rw [hsplit, find?_first (bufferSucceeds ops g) l1 b l2 h1 hb]
    rfl
  · intro g hfail
    unfold fixOneMultiPolygon tryBuffers
    rw [List.find?_eq_none.mpr (fun x hx => by simp [hfail x hx])]
    rfl

/-- C7 witness: on the concrete kernel c7Ops, the frame [3, −2] is
repaired to [3, 7], whose rows are all non-MultiPolygons, the
MultiPolygon −2 being fixed with the first radius 1/16 of the schedule. -/
theorem c7_fix_multipolygons_witness :
    fixMultipolygons c7Ops [3, -2] = .ok [3, 7] ∧
    (([3, 7] : List ℤ).all (fun g => !c7Ops.isMultiPolygon g) = true) ∧
    fixOneMultiPolygon c7Ops (-2) = .ok (c7Ops.bufferPair (-2) ((1:ℚ)/16)) := by
  have hok : fixMultipolygons c7Ops [3, -2] = .ok [3, 7] := by with_unfolding_all rfl
  refine ⟨hok, ?_, ?_⟩
  · exact ((c7_fix_multipolygons_radii_and_output c7Ops).2.2.1 [3, -2] [3, 7] hok).2.2
  · exact (c7_fix_multipolygons_radii_and_output c7Ops).2.2.2.1 (-2) [] ((1:ℚ)/16)
      [(101:ℚ)/1600, 1/8, 101/800, 1/4, 101/400, 1/2, 101/200, 1,
        101/100, 2, 101/50, 4, 101/25, 8, 202/25, 16, 404/25, 32, 808/25]
      (by with_unfolding_all rfl)
      (by intro x hx; exact absurd hx (List.not_mem_nil x))
      (by with_unfolding_all rfl)

/-- C8.  Whenever `fix_overlapping_geometries` returns normally, the
output geometries satisfy the schema bound
abs(Σ area − union area) / union area < 10⁻⁸; and when the
pairwise-subtraction loop finishes with a working set that violates the
bound, the call raises the schema error instead of returning. -/
theorem c8_overlap_output_area_preserved {γ : Type} [Inhabited γ] (ops : OverlapOps γ)
    (fuel : Nat) (gs : List γ) :
    (∀ out, fixOverlappingGeometries ops fuel gs = .ok out → overlapAreaCheck ops out) ∧
    (∀ ws, overlapLoop ops fuel
        { base := gs, ws := gs, refIdx := 0, otherIdx := 1, broken := [] } = .ok ws →
      ¬ overlapAreaCheck ops ws →
      fixOverlappingGeometries ops fuel gs = .error .schemaViolation) := by
  constructor
  · intro out h
    unfold fixOverlappingGeometries at h
    cases hl : overlapLoop ops fuel
        { base := gs, ws := gs, refIdx := 0, otherIdx := 1, broken := [] } with
    | error e => rw [hl] at h; simp at h
    | ok ws =>
        rw [hl] at h
        simp only at h
        by_cases hchk : overlapAreaCheck ops ws
        · rw [if_pos hchk] at h
          simp only [Except.ok.injEq] at h
          subst h
          exact hchk
        · rw [if_neg hchk] at h; simp at h
  · intro ws hl hbad
    unfold fixOverlappingGeometries
    rw [hl]
    simp only
    rw [if_neg hbad]

/-- C8 witness: on the concrete kernel c8Ops, the frame [1, 2] passes
the loop untouched and the returned output meets the area bound. -/
theorem c8_overlap_output_area_preserved_witness :
    overlapAreaCheck c8Ops [1, 2] := by
  exact (c8_overlap_output_area_preserved c8Ops 10 [1, 2]).1 [1, 2]
    (by with_unfolding_all rfl)

/-- A nonempty list whose elements are all equal dedups to the
singleton. -/
theorem dedup_const {α : Type} [DecidableEq α] :
    ∀ (l : List α) (k : α), l ≠ [] → (∀ x ∈ l, x = k) → l.dedup = [k]
  | [], _, hne, _ => absurd rfl hne
  | [x], k, _, hx => by
      have hxk : x = k := hx x (by simp)
      subst hxk; simp
  | x :: y :: t, k, _, hx => by
      have hxk : x = k := hx x (by simp)
      have hall : ∀ z ∈ y :: t, z = k := fun z hz => hx z (List.mem_cons_of_mem x hz)
      have hyk : y = k := hall y (by simp)
      have ih := dedup_const (y :: t) k (by simp) hall
      rw [List.dedup_cons_of_mem (by simp [hxk, hyk]), ih]

/-- C9.  In the degenerate branch of `Harmonizer.run`, a nonempty
all-mergeable fragment frame whose rows share the parent's
(parent_id, path_to_top_parent) key — as the partitioner guarantees for
the fragments of one exploded coarse row — and whose geometries union
to the parent's geometry is dissolved into exactly one row: the first
fragment's ids, the parent's geometry, level = coarse level + 1,
shape_name = the coarse name, and mergeable = false. -/
theorem c9_degenerate_parent_dissolves_to_parent {γ : Type} (unionAll : List γ → γ)
    (coarse : CoarseRow γ) (r0 : CRow γ) (rest : List (CRow γ))
    (hall : (r0 :: rest).all (fun r => r.mergeable) = true)
    (hkeys : ∀ r ∈ r0 :: rest, cKey r = cKey r0)
    (hunion : unionAll ((r0 :: rest).map (fun r => r.geometry)) = coarse.geometry) :
    degenerateDissolve unionAll coarse (r0 :: rest) =
      [{ shapeId := r0.shapeId, shapeName := some coarse.shapeName, parentId := r0.parentId,
         pttp := r0.pttp, level := some (coarse.level + 1), geometry := coarse.geometry,
         mergeable := false }] := by
  unfold degenerateDissolve
  rw [if_pos hall]
  unfold dissolveByParentPath
  have hmap : ∀ x ∈ (r0 :: rest).map cKey, x = cKey r0 := by
    intro x hx
    obtain ⟨r, hr, rfl⟩ := List.mem_map.mp hx
    exact hkeys r hr
  rw [dedup_const _ _ (by simp) hmap]
  have hfilt : (r0 :: rest).filter (fun r => decide (cKey r = cKey r0)) = r0 :: rest :=
    List.filter_eq_self.mpr (by intro a ha; simp [hkeys a ha])
  simp only [List.filterMap_cons, List.filterMap_nil, hfilt]
  simp
  simpa using hunion

/-- C9 witness: the two-fragment all-mergeable parent c9Coarse is
dissolved into the single parent-shaped row. -/
theorem c9_degenerate_parent_dissolves_to_parent_witness :
    degenerateDissolve List.sum c9Coarse [c9Frag1, c9Frag2] =
      [{ shapeId := some "S1", shapeName := some "CN", parentId := "P", pttp := "T",
         level := some 4, geometry := 5, mergeable := false }] := by
  have h := c9_degenerate_parent_dissolves_to_parent List.sum c9Coarse c9Frag1 [c9Frag2]
    (by with_unfolding_all rfl)
    (by
      intro r hr
      rcases List.mem_cons.mp hr with rfl | hr1
      · rfl
      rcases List.mem_cons.mp hr1 with rfl | hr2
      · rfl
      · exact absurd hr2 (List.not_mem_nil r))
    (by with_unfolding_all rfl)
  rw [h]
  with_unfolding_all rfl

/-- C3 counterexample.  On the frame c3Gdf the very small fragment
(alg_id 0, area 1/2000 ≤ 10⁻³) is merged, but its target is alg_id 1 —
the first neighbor in spatial-index query order — even though neighbor
alg_id 2 has the larger overlap against the fragment's 1-unit buffer
(5 versus 1); the flag very_small is set on the first row of the
neighbor frame, not on the top-overlap row, refuting the claim's
"single top neighbor".  The merge still goes through (third conjunct),
so it is the target selection, not the merging, that differs. -/
theorem c3_counterexample_first_query_neighbor_not_top :
    mergeMapFinal c3Ops c3Gdf (1/2) 2 = [(0, 1)] ∧
    decide (c3Ops.overlapArea c3Row0.geometry c3Row2.geometry >
      c3Ops.overlapArea c3Row0.geometry c3Row1.geometry) = true ∧
    decide (c3Ops.area c3Row0.geometry ≤ 1/1000) = true := by
  refine ⟨?_, ?_, ?_⟩ <;> with_unfolding_all rfl

/-- C10 counterexample.  On the frame c10Gdf the mergeable fragment
(alg_id 0) has two neighbors tied at overlap share 1/2 = the group
maximum ≥ the threshold 1/2 with neighbor count 2 ≤ 2, so both rows
pass meets_criteria, the merge map's index holds alg_id 0 twice, the
cycle-breaking loop drops neither (neither target is itself merged),
and the assertion guarding the dissolve fails. -/
theorem c10_counterexample_tie_breaks_assertion :
    mergeMapPre c10Ops c10Gdf (1/2) 2 = [(0, 1), (0, 2)] ∧
    simpleMerge c10Ops (1/2) 2 c10Gdf = .error .assertionFailed := by
  refine ⟨?_, ?_⟩ <;> with_unfolding_all rfl

/-- Every element of a rational list is bounded by the list maximum. -/
theorem le_maxQ : ∀ (l : List ℚ) (x : ℚ), x ∈ l → x ≤ (maxQ l).getD 0
  | y :: l, x, hx => by
      rcases List.mem_cons.mp hx with rfl | hxl
      · cases hml : maxQ l with
        | none => simp [maxQ, hml]
        | some m => simp only [maxQ, hml, Option.getD_some]; exact le_max_left x m
      · have ih := le_maxQ l x hxl
        cases hml : maxQ l with
        | none =>
            cases l with
            | nil => exact absurd hxl (List.not_mem_nil x)
            | cons z t => cases hmt : maxQ t <;> simp [maxQ, hmt] at hml
        | some m =>
            rw [hml, Option.getD_some] at ih
            simp only [maxQ, hml, Option.getD_some]
            exact le_trans ih (le_max_right y m)

/-- The maximum of a list of zeros is zero. -/
theorem maxQ_zeros : ∀ l : List ℚ, (∀ x ∈ l, x = 0) → (maxQ l).getD 0 = 0
  | [], _ => rfl
  | y :: l, h => by
      have hy : y = 0 := h y (by simp)
      have ih := maxQ_zeros l (fun x hx => h x (List.mem_cons_of_mem y hx))
      cases hml : maxQ l with
      | none => simp [maxQ, hml, hy]
      | some m =>
          rw [hml, Option.getD_some] at ih
          simp [maxQ, hml, hy, ih]

/-- Rows of the very-small rewrite come from the underlying frame with
their label, group and neighbor count intact and their share zeroed. -/
theorem zeroSmall_mem : ∀ (l : List NRow) (nr : NRow), nr ∈ zeroSmall l →
    ∃ x ∈ l, nr.algId = x.algId ∧ nr.nid = x.nid ∧ nr.pOverlap = 0
  | [], nr, h => absurd h (List.not_mem_nil nr)
  | b :: rest, nr, h => by
      rcases List.mem_cons.mp h with rfl | htail
      · exact ⟨b, List.mem_cons_self b rest, rfl, rfl, rfl⟩
      · obtain ⟨x, hx, rfl⟩ := List.mem_map.mp htail
        exact ⟨x, List.mem_cons_of_mem b hx, rfl, rfl, rfl⟩

/-- Every neighbor row of a fragment carries that fragment's label as
its nid. -/
theorem neighborRows_nid {γ : Type} (ops : MergeOps γ) (gdf : List (SRow γ)) (m : SRow γ) :
    ∀ nr ∈ neighborRows ops gdf m, nr.nid = m.algId := by
  intro nr hnr
  unfold neighborRows at hnr
  have hbase : ∀ x ∈ (neighborFrame ops gdf m).map
      (mkNRow ops m (neighborFrame ops gdf m)), x.nid = m.algId := by
    intro x hx
    obtain ⟨s, _, rfl⟩ := List.mem_map.mp hx
    rfl
  by_cases hsmall : ops.area m.geometry ≤ 1/1000
  · rw [if_pos hsmall] at hnr
    obtain ⟨x, hx, _, hnid, _⟩ := zeroSmall_mem _ nr hnr
    rw [hnid]
    exact hbase x hx
  · rw [if_neg hsmall] at hnr
    exact hbase nr hnr

/-- For a very small fragment, every neighbor row has share zero. -/
theorem neighborRows_small_pOverlap {γ : Type} (ops : MergeOps γ) (gdf : List (SRow γ))
    (m : SRow γ) (hsmall : ops.area m.geometry ≤ 1/1000) :
    ∀ nr ∈ neighborRows ops gdf m, nr.pOverlap = 0 := by
  intro nr hnr
  unfold neighborRows at hnr
  rw [if_pos hsmall] at hnr
  obtain ⟨_, _, _, _, hz⟩ := zeroSmall_mem _ nr hnr
  exact hz

/-- For a fragment that is not very small, no neighbor row is flagged
very_small. -/
theorem neighborRows_not_small_flag {γ : Type} (ops : MergeOps γ) (gdf : List (SRow γ))
    (m : SRow γ) (hbig : ¬ ops.area m.geometry ≤ 1/1000) :
    ∀ nr ∈ neighborRows ops gdf m, nr.verySmall = false := by
  intro nr hnr
  unfold neighborRows at hnr
  rw [if_neg hbig] at hnr
  obtain ⟨s, _, rfl⟩ := List.mem_map.mp hnr
  rfl

/-- A share of zero fails meets_criteria whenever the threshold is
positive: the row-wise threshold np.maximum(max_p, threshold) is at
least the positive threshold. -/
theorem meets_false_of_zero (nrs : List NRow) (thr : ℚ) (nc : Nat) (hthr : 0 < thr)
    (nr : NRow) (h0 : nr.pOverlap = 0) :
    meetsCriteria nrs thr nc nr = false := by
  unfold meetsCriteria
  have hlt : ¬ (nr.pOverlap ≥ max (maxPOf nrs nr.nid) thr) := by
    rw [h0]
    exact not_le.mpr (lt_of_lt_of_le hthr (le_max_right _ _))
  simp [hlt]

/-- Filtering a flattened per-fragment structure by one fragment's
label keeps exactly that fragment's block when labels are distinct. -/
theorem filter_flatten_blocks {α : Type} (key : α → Nat) (f : α → List NRow) :
    ∀ (frags : List α) (m : α), m ∈ frags →
      (∀ x ∈ frags, ∀ nr ∈ f x, nr.nid = key x) →
      ((frags.map key).Nodup) →
      (((frags.map f).flatten).filter (fun nr => nr.nid = key m)) = f m
  | [], m, hm, _, _ => absurd hm (List.not_mem_nil m)
  | x :: rest, m, hm, hall, hnodup => by
      simp only [List.map_cons, List.flatten_cons, List.filter_append]
      have hnodup' := (List.nodup_cons.mp hnodup)
      rcases List.mem_cons.mp hm with rfl | hmrest
      · have h1 : (f m).filter (fun nr => nr.nid = key m) = f m :=
          List.filter_eq_self.mpr (by
            intro a ha
            simp [hall m (List.mem_cons_self m rest) a ha])
        have h2 : ((rest.map f).flatten).filter (fun nr => nr.nid = key m) = [] := by
          rw [List.filter_eq_nil_iff]
          intro a ha
          obtain ⟨l, hl, hal⟩ := List.mem_flatten.mp ha
          obtain ⟨y, hy, rfl⟩ := List.mem_map.mp hl
          have : a.nid = key y := hall y (List.mem_cons_of_mem m hy) a hal
          have hne : key y ≠ key m := by
            intro hcontra
            exact hnodup'.1 (hcontra ▸ List.mem_map_of_mem key hy)
          simp [this, hne]
        rw [h1, h2, List.append_nil]
      · have h1 : (f x).filter (fun nr => nr.nid = key m) = [] := by
          rw [List.filter_eq_nil_iff]
          intro a ha
          have : a.nid = key x := hall x (List.mem_cons_self x rest) a ha
          have hne : key x ≠ key m := by
            intro hcontra
            exact hnodup'.1 (hcontra ▸ List.mem_map_of_mem key hmrest)
          simp [this, hne]
        have h2 := filter_flatten_blocks key f rest m hmrest
          (fun y hy => hall y (List.mem_cons_of_mem x hy)) hnodup'.2
        rw [h1, h2, List.nil_append]

/-- With distinct mergeable labels, the nid group of the concatenated
neighbor frame is exactly the fragment's own neighbor rows. -/
theorem nid_group_eq {γ : Type} (ops : MergeOps γ) (gdf : List (SRow γ)) (m : SRow γ)
    (hm : m ∈ gdf.filter (fun r => r.mergeable))
    (hnodup : ((gdf.filter (fun r => r.mergeable)).map (fun r => r.algId)).Nodup) :
    (allNeighborRows ops gdf).filter (fun nr => nr.nid = m.algId) =
      neighborRows ops gdf m := by
  unfold allNeighborRows
  exact filter_flatten_blocks (fun r => r.algId) (neighborRows ops gdf)
    (gdf.filter (fun r => r.mergeable)) m hm
    (fun x _ => neighborRows_nid ops gdf x) hnodup

/-- A filter by a stronger predicate is no longer than a filter by a
weaker one. -/
theorem length_filter_mono {α : Type} (p q : α → Bool) :
    ∀ l : List α, (∀ x ∈ l, p x = true → q x = true) →
      (l.filter p).length ≤ (l.filter q).length
  | [], _ => Nat.le_refl 0
  | x :: l, h => by
      have ih := length_filter_mono p q l (fun y hy => h y (List.mem_cons_of_mem x hy))
      by_cases hp : p x = true
      · have hq := h x (List.mem_cons_self x l) hp
        simp only [List.filter_cons, hp, hq, if_pos, List.length_cons]
        omega
      · simp only [List.filter_cons, Bool.eq_false_iff.mpr hp]
        cases hq : q x <;> simp <;> omega

/-- Under a positive threshold, distinct mergeable labels, and no tie
at the top among a not-very-small fragment's neighbors, at most one
neighbor row of the fragment passes very_small-or-meets_criteria. -/
theorem passing_le_one {γ : Type} (ops : MergeOps γ) (gdf : List (SRow γ)) (thr : ℚ)
    (nc : Nat) (hthr : 0 < thr)
    (hnodup : ((gdf.filter (fun r => r.mergeable)).map (fun r => r.algId)).Nodup)
    (m : SRow γ) (hm : m ∈ gdf.filter (fun r => r.mergeable))
    (htf : ¬ ops.area m.geometry ≤ 1/1000 → tieFree ops gdf m) :
    ((neighborRows ops gdf m).filter (fun nr =>
        nr.verySmall || meetsCriteria (allNeighborRows ops gdf) thr nc nr)).length ≤ 1 := by
  by_cases hsmall : ops.area m.geometry ≤ 1/1000
  · have hfc : ∀ nr ∈ neighborRows ops gdf m,
        (nr.verySmall || meetsCriteria (allNeighborRows ops gdf) thr nc nr) = nr.verySmall := by
      intro nr hnr
      rw [meets_false_of_zero _ thr nc hthr nr
        (neighborRows_small_pOverlap ops gdf m hsmall nr hnr)]
      simp
    rw [List.filter_congr hfc]
    have hvs : ∀ x ∈ (neighborFrame ops gdf m).map
        (mkNRow ops m (neighborFrame ops gdf m)), x.verySmall = false := by
      intro x hx
      obtain ⟨s, _, rfl⟩ := List.mem_map.mp hx
      rfl
    unfold neighborRows
    rw [if_pos hsmall]
    cases hb : (neighborFrame ops gdf m).map (mkNRow ops m (neighborFrame ops gdf m)) with
    | nil => simp [zeroSmall]
    | cons b rest =>
        rw [hb] at hvs
        simp only [zeroSmall, List.filter_cons]
        have htail : (rest.map (fun nr => ({ nr with pOverlap := 0 } : NRow))).filter
            (fun nr => nr.verySmall) = [] := by
          rw [List.filter_eq_nil_iff]
          intro a ha
          obtain ⟨y, hy, rfl⟩ := List.mem_map.mp ha
          simp [hvs y (List.mem_cons_of_mem b hy)]
        simp [htail]
  · have hfc : ∀ nr ∈ neighborRows ops gdf m,
        (nr.verySmall || meetsCriteria (allNeighborRows ops gdf) thr nc nr) =
          meetsCriteria (allNeighborRows ops gdf) thr nc nr := by
      intro nr hnr
      rw [neighborRows_not_small_flag ops gdf m hsmall nr hnr]
      simp
    rw [List.filter_congr hfc]
    have hgrp := nid_group_eq ops gdf m hm hnodup
    have hmono : ∀ nr ∈ neighborRows ops gdf m,
        meetsCriteria (allNeighborRows ops gdf) thr nc nr = true →
        decide (nr.pOverlap = maxPOf (allNeighborRows ops gdf) m.algId) = true := by
      intro nr hnr hmeet
      have hnid := neighborRows_nid ops gdf m nr hnr
      have hge : nr.pOverlap ≥ max (maxPOf (allNeighborRows ops gdf) m.algId) thr := by
        unfold meetsCriteria at hmeet
        rw [Bool.and_eq_true, decide_eq_true_eq, decide_eq_true_eq] at hmeet
        rw [hnid] at hmeet
        exact hmeet.1
      have hle : nr.pOverlap ≤ maxPOf (allNeighborRows ops gdf) m.algId := by
        unfold maxPOf
        apply le_maxQ
        rw [hgrp]
        exact List.mem_map_of_mem (fun nr => nr.pOverlap) hnr
      rw [decide_eq_true_eq]
      exact le_antisymm hle (le_trans (le_max_left _ _) hge)
    calc ((neighborRows ops gdf m).filter
            (meetsCriteria (allNeighborRows ops gdf) thr nc)).length
        ≤ ((neighborRows ops gdf m).filter (fun nr =>
            decide (nr.pOverlap = maxPOf (allNeighborRows ops gdf) m.algId))).length :=
          length_filter_mono _ _ _ hmono
      _ ≤ 1 := htf hsmall

/-- Per-fragment blocks of at most one element, each holding its
fragment's label, flatten to a sublist of the label list. -/
theorem flatten_sublist_keys {α : Type} (key : α → Nat) (f : α → List Nat) :
    ∀ frags : List α, (∀ m ∈ frags, (f m).length ≤ 1 ∧ ∀ x ∈ f m, x = key m) →
      ((frags.map f).flatten).Sublist (frags.map key)
  | [], _ => by simp
  | m :: rest, h => by
      simp only [List.map_cons, List.flatten_cons]
      have hm := h m (List.mem_cons_self m rest)
      have ih := flatten_sublist_keys key f rest (fun y hy => h y (List.mem_cons_of_mem m hy))
      cases hfm : f m with
      | nil => simpa using ih.cons (key m)
      | cons x t =>
          have ht : t = [] := by
            have hlen := hm.1
            rw [hfm] at hlen
            simp only [List.length_cons] at hlen
            exact List.eq_nil_of_length_eq_zero (by omega)
          subst ht
          have hx : x = key m := hm.2 x (by rw [hfm]; exact List.mem_cons_self x [])
          subst hx
          simpa using ih.cons₂ (key m)

/-- C10 (amended).  The no-duplicate-source assertion of simple_merge
holds whenever the threshold is positive, the mergeable fragments carry
distinct labels, and no not-very-small fragment has two neighbors tied
at its maximal overlap share: the merge map's index is then duplicate
free both before and after cycle-breaking, so simple_merge never raises
the assertion error. -/
theorem c10_merge_map_nodup_when_tie_free {γ : Type} (ops : MergeOps γ)
    (gdf : List (SRow γ)) (thr : ℚ) (nc : Nat) (hthr : 0 < thr)
    (hnodup : ((gdf.filter (fun r => r.mergeable)).map (fun r => r.algId)).Nodup)
    (htf : ∀ m ∈ gdf.filter (fun r => r.mergeable),
      ¬ ops.area m.geometry ≤ 1/1000 → tieFree ops gdf m) :
    ((mergeMapFinal ops gdf thr nc).map Prod.fst).Nodup ∧
    simpleMerge ops thr nc gdf ≠ .error .assertionFailed := by
  have hpre : ((mergeMapPre ops gdf thr nc).map Prod.fst).Nodup := by
    unfold mergeMapPre
    rw [List.map_map]
    have hfst : (Prod.fst ∘ fun nr : NRow => (nr.nid, nr.algId)) = fun nr : NRow => nr.nid :=
      rfl
    rw [hfst]
    have h1 : (allNeighborRows ops gdf).filter (fun nr =>
        nr.verySmall || meetsCriteria (allNeighborRows ops gdf) thr nc nr) =
        ((gdf.filter (fun r => r.mergeable)).map (fun m => (neighborRows ops gdf m).filter
          (fun nr => nr.verySmall ||
            meetsCriteria (allNeighborRows ops gdf) thr nc nr))).flatten := by
      conv_lhs => rw [allNeighborRows]
      rw [List.filter_flatten, List.map_map]
      rfl
    rw [h1, List.map_flatten, List.map_map]
    apply List.Nodup.sublist ?_ hnodup
    apply flatten_sublist_keys (fun r : SRow γ => r.algId)
    intro m hmem
    constructor
    · simp only [Function.comp_apply, List.length_map]
      exact passing_le_one ops gdf thr nc hthr hnodup m hmem (htf m hmem)
    · intro x hx
      simp only [Function.comp_apply] at hx
      obtain ⟨nr, hnr, rfl⟩ := List.mem_map.mp hx
      exact neighborRows_nid ops gdf m nr (List.mem_of_mem_filter hnr)
  have hfin : ((mergeMapFinal ops gdf thr nc).map Prod.fst).Nodup := by
    unfold mergeMapFinal
    exact List.Nodup.sublist (List.Sublist.map Prod.fst (List.filter_sublist _)) hpre
  refine ⟨hfin, ?_⟩
  intro hcontra
  unfold simpleMerge at hcontra
  by_cases hany : gdf.any (fun r => r.mergeable) = true
  · rw [hany] at hcontra
    simp only [Bool.not_true] at hcontra
    rw [if_neg (by simp)] at hcontra
    rw [if_pos hfin] at hcontra
    exact absurd hcontra (by simp)
  · have hfalse : gdf.any (fun r => r.mergeable) = false := Bool.eq_false_iff.mpr hany
    rw [hfalse] at hcontra
    simp at hcontra

/-- C3 (amended).  A very small mergeable fragment (area ≤ 10⁻³) with a
nonempty neighbor frame contributes exactly one edge to the merge map
before cycle-breaking, regardless of the threshold (any positive value)
and neighbor_count: its target is the FIRST neighbor returned by the
spatial-index query, which need not be the neighbor with the largest
overlap; the edge can still be removed by the cycle-breaking drop. -/
theorem c3_very_small_merges_to_first_query_neighbor {γ : Type} (ops : MergeOps γ)
    (gdf : List (SRow γ)) (thr : ℚ) (nc : Nat) (hthr : 0 < thr)
    (hnodup : ((gdf.filter (fun r => r.mergeable)).map (fun r => r.algId)).Nodup)
    (m : SRow γ) (hm : m ∈ gdf.filter (fun r => r.mergeable))
    (hsmall : ops.area m.geometry ≤ 1/1000)
    (s : SRow γ) (srest : List (SRow γ)) (hnf : neighborFrame ops gdf m = s :: srest) :
    (mergeMapPre ops gdf thr nc).filter (fun pr => pr.1 = m.algId) =
      [(m.algId, s.algId)] := by
  unfold mergeMapPre
  rw [List.filter_map]
  have hcomp : ((fun pr : Nat × Nat => decide (pr.1 = m.algId)) ∘
      fun nr : NRow => (nr.nid, nr.algId)) = fun nr : NRow => decide (nr.nid = m.algId) := rfl
  rw [hcomp]
  have hswap : ((allNeighborRows ops gdf).filter (fun nr =>
      nr.verySmall || meetsCriteria (allNeighborRows ops gdf) thr nc nr)).filter
        (fun nr => decide (nr.nid = m.algId)) =
      ((allNeighborRows ops gdf).filter (fun nr => decide (nr.nid = m.algId))).filter
        (fun nr => nr.verySmall || meetsCriteria (allNeighborRows ops gdf) thr nc nr) := by
    rw [List.filter_filter, List.filter_filter]
    exact List.filter_congr (fun a _ => by rw [Bool.and_comm])
  rw [hswap, nid_group_eq ops gdf m hm hnodup]
  have hrows : neighborRows ops gdf m =
      ({ mkNRow ops m (neighborFrame ops gdf m) s with pOverlap := 0, verySmall := true }) ::
        (srest.map (mkNRow ops m (neighborFrame ops gdf m))).map
          (fun nr => { nr with pOverlap := 0 }) := by
    unfold neighborRows
    rw [if_pos hsmall, hnf]
    simp [zeroSmall]
  rw [hrows]
  have htail : ((srest.map (mkNRow ops m (neighborFrame ops gdf m))).map
      (fun nr => ({ nr with pOverlap := 0 } : NRow))).filter
        (fun nr => nr.verySmall ||
          meetsCriteria (allNeighborRows ops gdf) thr nc nr) = [] := by
    rw [List.filter_eq_nil_iff]
    intro a ha
    obtain ⟨y, hy, rfl⟩ := List.mem_map.mp ha
    obtain ⟨u, hu, rfl⟩ := List.mem_map.mp hy
    have h1 : ({ mkNRow ops m (neighborFrame ops gdf m) u with
        pOverlap := 0 } : NRow).verySmall = false := rfl
    have h2 := meets_false_of_zero (allNeighborRows ops gdf) thr nc hthr
      ({ mkNRow ops m (neighborFrame ops gdf m) u with pOverlap := 0 }) rfl
    simp only [h1, h2]
    simp [mkNRow]
  rw [List.filter_cons, if_pos (show (({ mkNRow ops m (neighborFrame ops gdf m) s with
      pOverlap := 0, verySmall := true } : NRow).verySmall ||
        meetsCriteria (allNeighborRows ops gdf) thr nc
          ({ mkNRow ops m (neighborFrame ops gdf m) s with
            pOverlap := 0, verySmall := true })) = true from rfl), htail]
  rfl

/-- C3 witness: the amended statement at the concrete input c3Gdf — the
very small fragment's unique merge edge targets the first queried
neighbor. -/
theorem c3_very_small_merges_to_first_query_neighbor_witness :
    (mergeMapPre c3Ops c3Gdf (1/2) 2).filter (fun pr => pr.1 = c3Row0.algId) =
      [(c3Row0.algId, c3Row1.algId)] :=
  c3_very_small_merges_to_first_query_neighbor c3Ops c3Gdf (1/2) 2
    (of_decide_eq_true (by with_unfolding_all rfl))
    (of_decide_eq_true (by with_unfolding_all rfl))
    c3Row0
    (of_decide_eq_true (by with_unfolding_all rfl))
    (of_decide_eq_true (by with_unfolding_all rfl))
    c3Row1 [c3Row2]
    (by with_unfolding_all rfl)

/-- C10 witness: on the tie-free frame c3Gdf the merge map's index is
duplicate free and simple_merge does not hit the assertion. -/
theorem c10_merge_map_nodup_when_tie_free_witness :
    ((mergeMapFinal c3Ops c3Gdf (1/2) 2).map Prod.fst).Nodup ∧
    simpleMerge c3Ops (1/2) 2 c3Gdf ≠ .error .assertionFailed := by
  apply c10_merge_map_nodup_when_tie_free
  · exact of_decide_eq_true (by with_unfolding_all rfl)
  · exact of_decide_eq_true (by with_unfolding_all rfl)
  · intro m hm hbig
    exfalso
    have hlist : c3Gdf.filter (fun r => r.mergeable) = [c3Row0] :=
      of_decide_eq_true (by with_unfolding_all rfl)
    rw [hlist] at hm
    have hm0 : m = c3Row0 := by simpa using hm
    rw [hm0] at hbig
    exact hbig (of_decide_eq_true (by with_unfolding_all rfl))

/-- nameLe is total. -/
theorem nameLe_total : ∀ a b : Option String, nameLe a b = true ∨ nameLe b a = true
  | none, none => Or.inl rfl
  | none, some _ => Or.inr rfl
  | some _, none => Or.inl rfl
  | some x, some y => by
      rcases le_total x y with h | h
      · exact Or.inl (by simp [nameLe, h])
      · exact Or.inr (by simp [nameLe, h])

/-- nameLe is transitive. -/
theorem nameLe_trans : ∀ a b c : Option String,
    nameLe a b = true → nameLe b c = true → nameLe a c = true
  | none, none, _, _, h2 => h2
  | none, some _, _, h1, _ => by simp [nameLe] at h1
  | some _, _, none, _, _ => rfl
  | some _, none, some _, _, h2 => by simp [nameLe] at h2
  | some x, some y, some z, h1, h2 => by
      simp only [nameLe, decide_eq_true_eq] at h1 h2 ⊢
      exact le_trans h1 h2

/-- The sort key of simple_merge's dissolve is total. -/
theorem rowLe_total {γ : Type} : ∀ a b : SRow γ, rowLe a b = true ∨ rowLe b a = true := by
  intro a b
  unfold rowLe
  by_cases h : a.mergeable = b.mergeable
  · rw [if_pos h, if_pos h.symm]
    exact nameLe_total a.shapeName b.shapeName
  · rw [if_neg h, if_neg (fun hc => h hc.symm)]
    cases ha : a.mergeable
    · exact Or.inl rfl
    · cases hb : b.mergeable
      · exact Or.inr rfl
      · exact absurd (by rw [ha, hb]) h

/-- The sort key of simple_merge's dissolve is transitive. -/
theorem rowLe_trans {γ : Type} : ∀ a b c : SRow γ,
    rowLe a b = true → rowLe b c = true → rowLe a c = true := by
  intro a b c h1 h2
  unfold rowLe at h1 h2 ⊢
  cases ha : a.mergeable <;> cases hb : b.mergeable <;> cases hc : c.mergeable <;>
      simp only [ha, hb, hc] at h1 h2 ⊢ <;>
      simp at h1 h2 ⊢
  · exact nameLe_trans _ _ _ h1 h2
  · exact nameLe_trans _ _ _ h1 h2

/-- sortSRows is pairwise ordered by the sort key. -/
theorem sortSRows_sorted {γ : Type} (rows : List (SRow γ)) :
    List.Pairwise (fun a b : SRow γ => rowLe a b = true) (sortSRows rows) := by
  haveI : IsTotal (SRow γ) (fun a b => rowLe a b = true) := ⟨rowLe_total⟩
  haveI : IsTrans (SRow γ) (fun a b => rowLe a b = true) := ⟨rowLe_trans⟩
  exact List.sorted_insertionSort _ rows

/-- In the dissolve of simple_merge, any group holding a unique
reference row hands that row's identifying attributes to its output
row: references sort before mergeable rows, so the group's first row in
sort order is the reference. -/
theorem dissolve_group_keeps_reference {γ : Type} (ops : MergeOps γ) (rows : List (SRow γ))
    (r : SRow γ) (hr : r ∈ rows) (href : r.mergeable = false)
    (huniq : ∀ x ∈ rows, x.mergeId = r.mergeId → x.mergeable = false → x = r) :
    ∃ o ∈ dissolveByMergeId ops rows,
      o.mergeId = r.mergeId ∧ o.shapeId = r.shapeId ∧ o.shapeName = r.shapeName ∧
      o.parentId = r.parentId ∧ o.pttp = r.pttp ∧ o.level = r.level := by
  have hkey : r.mergeId ∈ (rows.map (fun x => x.mergeId)).dedup :=
    List.mem_dedup.mpr (List.mem_map_of_mem _ hr)
  have hmemsort : r ∈ sortSRows rows := (List.perm_insertionSort _ rows).mem_iff.mpr hr
  have hgrpmem : r ∈ (sortSRows rows).filter (fun x => x.mergeId = r.mergeId) :=
    List.mem_filter.mpr ⟨hmemsort, by simp⟩
  cases hgrp : (sortSRows rows).filter (fun x => x.mergeId = r.mergeId) with
  | nil => rw [hgrp] at hgrpmem; exact absurd hgrpmem (List.not_mem_nil r)
  | cons g0 rest =>
      have hpw : List.Pairwise (fun a b : SRow γ => rowLe a b = true) (g0 :: rest) := by
        rw [← hgrp]
        exact List.Pairwise.sublist (List.filter_sublist _) (sortSRows_sorted rows)
      rw [hgrp] at hgrpmem
      have hg0 : g0 = r := by
        rcases List.mem_cons.mp hgrpmem with rfl | hrrest
        · rfl
        · have hle : rowLe g0 r = true := (List.pairwise_cons.mp hpw).1 r hrrest
          have hg0mem : g0 ∈ (sortSRows rows).filter (fun x => x.mergeId = r.mergeId) := by
            rw [hgrp]; exact List.mem_cons_self g0 rest
          have hg0rows : g0 ∈ rows :=
            (List.perm_insertionSort _ rows).mem_iff.mp (List.mem_of_mem_filter hg0mem)
          have hg0key : g0.mergeId = r.mergeId := by
            have := (List.mem_filter.mp hg0mem).2
            simpa using this
          cases hmg : g0.mergeable with
          | false => exact huniq g0 hg0rows hg0key hmg
          | true =>
              exfalso
              unfold rowLe at hle
              rw [if_neg (by rw [hmg, href]; simp), hmg] at hle
              simp at hle
      refine ⟨{ g0 with
          geometry := ops.bufferSmooth (ops.unionAll ((g0 :: rest).map (fun s => s.geometry)))
          algId := r.mergeId
          mergeId := r.mergeId }, ?_, ?_⟩
      · unfold dissolveByMergeId
        apply List.mem_filterMap.mpr
        refine ⟨r.mergeId, hkey, ?_⟩
        rw [hgrp]
      · subst hg0
        exact ⟨rfl, rfl, rfl, rfl, rfl, rfl⟩

/-- When simple_merge actually merges (some row is mergeable) and
returns normally, its output is the dissolve of the frame with the
final merge map's ids applied. -/
theorem simpleMerge_ok_eq {γ : Type} (ops : MergeOps γ) (thr : ℚ) (nc : Nat)
    (gdf out : List (SRow γ)) (h : simpleMerge ops thr nc gdf = .ok out)
    (hany : gdf.any (fun r => r.mergeable) = true) :
    out = dissolveByMergeId ops (applyMergeIds gdf (mergeMapFinal ops gdf thr nc)) := by
  unfold simpleMerge at h
  rw [hany] at h
  simp only [Bool.not_true] at h
  rw [if_neg (by simp)] at h
  by_cases hnd : ((mergeMapFinal ops gdf thr nc).map Prod.fst).Nodup
  · rw [if_pos hnd] at h
    injection h with h
    exact h.symm
  · rw [if_neg hnd] at h
    simp at h

/-- C4.  Identity preservation in both merge variants.  First conjunct
(base variant collapse_mergeable_geometries): the i-th output row
carries the i-th reference row's shape_id, shape_name, parent_id,
path_to_top_parent and level unchanged — only its geometry is replaced
by the dissolved union.  Second conjunct (simple_merge's dissolve):
every group holding a unique reference row produces an output row with
that reference's five attributes unchanged, because references sort
before mergeable rows.  Third conjunct ties the second to simple_merge:
a normal merging return is exactly that dissolve. -/
theorem c4_reference_identity_preserved {γ : Type} :
    (∀ (bops : BaseMergeOps γ) (bufferSize : ℚ) (gdf : List (CRow γ)) (i : Nat)
       (hi : i < (gdf.filter (fun r => !r.mergeable)).length)
       (ho : i < (collapseMergeable bops bufferSize gdf).length),
       ((collapseMergeable bops bufferSize gdf).get ⟨i, ho⟩).shapeId =
           ((gdf.filter (fun r => !r.mergeable)).get ⟨i, hi⟩).shapeId ∧
       ((collapseMergeable bops bufferSize gdf).get ⟨i, ho⟩).shapeName =
           ((gdf.filter (fun r => !r.mergeable)).get ⟨i, hi⟩).shapeName ∧
       ((collapseMergeable bops bufferSize gdf).get ⟨i, ho⟩).parentId =
           ((gdf.filter (fun r => !r.mergeable)).get ⟨i, hi⟩).parentId ∧
       ((collapseMergeable bops bufferSize gdf).get ⟨i, ho⟩).pttp =
           ((gdf.filter (fun r => !r.mergeable)).get ⟨i, hi⟩).pttp ∧
       ((collapseMergeable bops bufferSize gdf).get ⟨i, ho⟩).level =
           ((gdf.filter (fun r => !r.mergeable)).get ⟨i, hi⟩).level) ∧
    (∀ (ops : MergeOps γ) (rows : List (SRow γ)) (r : SRow γ),
       r ∈ rows → r.mergeable = false →
       (∀ x ∈ rows, x.mergeId = r.mergeId → x.mergeable = false → x = r) →
       ∃ o ∈ dissolveByMergeId ops rows,
         o.mergeId = r.mergeId ∧ o.shapeId = r.shapeId ∧ o.shapeName = r.shapeName ∧
         o.parentId = r.parentId ∧ o.pttp = r.pttp ∧ o.level = r.level) ∧
    (∀ (ops : MergeOps γ) (thr : ℚ) (nc : Nat) (gdf out : List (SRow γ)),
       simpleMerge ops thr nc gdf = .ok out →
       gdf.any (fun r => r.mergeable) = true →
       out = dissolveByMergeId ops (applyMergeIds gdf (mergeMapFinal ops gdf thr nc))) := by
  refine ⟨?_, ?_, ?_⟩
  · intro bops bufferSize gdf i hi ho
    unfold collapseMergeable
    simp only [List.get_eq_getElem, List.getElem_map, List.getElem_enum]
    exact ⟨trivial, trivial, trivial, trivial, trivial⟩
  · intro ops rows r hr href huniq
    exact dissolve_group_keeps_reference ops rows r hr href huniq
  · intro ops thr nc gdf out h hany
    exact simpleMerge_ok_eq ops thr nc gdf out h hany

/-- C4 witness: the base merger keeps the reference's shape_id on the
frame c4aGdf; the dissolve group {c4bFrag, c4bRef} hands the
reference's attributes to its output row; and simple_merge's normal
merging return on c3Gdf equals the dissolve of the id-applied frame. -/
theorem c4_reference_identity_preserved_witness :
    (∃ ho : 0 < (collapseMergeable c4BaseOps 10 c4aGdf).length,
      ∃ hi : 0 < (c4aGdf.filter (fun r => !r.mergeable)).length,
      ((collapseMergeable c4BaseOps 10 c4aGdf).get ⟨0, ho⟩).shapeId =
        ((c4aGdf.filter (fun r => !r.mergeable)).get ⟨0, hi⟩).shapeId) ∧
    (∃ o ∈ dissolveByMergeId c3Ops [c4bFrag, c4bRef],
      o.mergeId = c4bRef.mergeId ∧ o.shapeId = c4bRef.shapeId ∧
      o.shapeName = c4bRef.shapeName ∧ o.parentId = c4bRef.parentId ∧
      o.pttp = c4bRef.pttp ∧ o.level = c4bRef.level) ∧
    c4O = dissolveByMergeId c3Ops (applyMergeIds c3Gdf (mergeMapFinal c3Ops c3Gdf (1/2) 2)) := by
  refine ⟨?_, ?_, ?_⟩
  · have hi : 0 < (c4aGdf.filter (fun r => !r.mergeable)).length :=
      of_decide_eq_true (by with_unfolding_all rfl)
    have ho : 0 < (collapseMergeable c4BaseOps 10 c4aGdf).length :=
      of_decide_eq_true (by with_unfolding_all rfl)
    exact ⟨ho, hi, ((c4_reference_identity_preserved (γ := ℚ)).1 c4BaseOps 10 c4aGdf 0 hi ho).1⟩
  · refine (c4_reference_identity_preserved (γ := Nat)).2.1 c3Ops [c4bFrag, c4bRef] c4bRef
      (of_decide_eq_true (by with_unfolding_all rfl))
      (by with_unfolding_all rfl)
      ?_
    intro x hx hkey hmerg
    rcases List.mem_cons.mp hx with rfl | hx1
    · have hcontra : (true : Bool) = false :=
        (by with_unfolding_all rfl : c4bFrag.mergeable = true) ▸ hmerg
      exact absurd hcontra (by simp)
    rcases List.mem_cons.mp hx1 with rfl | hx2
    · rfl
    · exact absurd hx2 (List.not_mem_nil x)
  · exact (c4_reference_identity_preserved (γ := Nat)).2.2 c3Ops (1/2) 2 c3Gdf c4O
      (by with_unfolding_all rfl)
      (by with_unfolding_all rfl)

/-- C6 witness: a loop that starts above tolerance runs within the
budget, and a loop that starts within tolerance runs zero times. -/
theorem c6_collapse_loop_bounded_witness :
    (collapseGeometries (fun d : ℚ => d - 1) (fun d => (d, d)) 1).2 ≤ maxStepIterations ∧
    collapseGeometries (fun d : ℚ => d - 1) (fun d => (d, d)) 0 = (0, 0) := by
  constructor
  · exact (c6_collapse_loop_bounded _ _ _).1
  · exact (c6_collapse_loop_bounded (fun d : ℚ => d - 1) (fun d => (d, d)) 0).2.1
      (of_decide_eq_false (by with_unfolding_all rfl))

end Geofuse
